import Mathlib

/-!
# Verification of the resume_tailor ingestion / retrieval pipeline

Shallow embedding of the resume_tailor repository: the relational schema of
`backend/migrations/001_initial_schema.sql` (as amended by the inlined
`003_augmented_schema.sql`), `backend/migrations/004_supabase_auth.sql`,
`backend/migrations/005_embeddings_metadata.sql` and the live-schema snapshot
`postgres_database.json`; the browser Supabase client
`frontend/src/lib/supabaseClient.ts`; and — where the backend service code is
not part of the repository snapshot — models of the ingestion pipeline, the
RAG resume generator and the job orchestrator written from the specification.
-/

namespace ResumeTailor

/-! ## Relational data model

Row types follow the columns of `001_initial_schema.sql` plus the columns
added by the later migrations recorded in `postgres_database.json`.
Bookkeeping columns irrelevant to the verified properties (surrogate chunk
ids, timestamps, `embedding_id`, `chunk_id`) are omitted; vectors are
modelled as the embedded text (see `embed`). -/

/-- A row of the `users` table (`001_initial_schema.sql`). -/
structure UserRow where
  uid : Nat
  username : String
  access_code : String
  deriving DecidableEq, Repr

/-- A row of the `projects` table: `001_initial_schema.sql` columns plus
`title`, `star_ramble`, `selected` (003), `summary`,
`summary_embedding_vector` (`postgres_database.json`), `repo_id` (005).
`ramble_fingerprint` is modelled from the spec ("freshness fingerprint of its
ramble", §3): the backend stores the last-processed ramble fingerprint to
drive change detection; the backend service code is not in the snapshot. -/
structure Project where
  project_id : Nat
  user_id : Nat
  github_url : String
  title : Option String := none
  star_ramble : Option String := none
  summary : Option String := none
  summary_embedding_vector : Option String := none
  selected : Bool := false
  repo_id : Option Nat := none
  ramble_fingerprint : Option String := none
  deriving DecidableEq, Repr

/-- A row of the `repository_files` table (`001_initial_schema.sql`). -/
structure RepoFile where
  id : Nat
  project_id : Nat
  file_path : String
  content_hash : Option String := none
  deriving DecidableEq, Repr

/-- A row of the `file_chunks` table: nullable `file_id`, `chunk_index`,
`content`, plus `embedding_vector`, `chunk_type`, nullable `project_id`
added by 003 (`postgres_database.json`). -/
structure Chunk where
  file_id : Option Nat
  chunk_index : Nat
  content : String
  chunk_type : String := "code"
  embedding_vector : Option String := none
  project_id : Option Nat := none
  deriving DecidableEq, Repr

/-- The relational store: the four tables of `001_initial_schema.sql`. -/
structure DB where
  users : List UserRow := []
  projects : List Project := []
  files : List RepoFile := []
  chunks : List Chunk := []
  deriving DecidableEq, Repr

/-- The empty database (state right after the migrations run). -/
def DB.empty : DB := {}

/-! ## Content fingerprinting and change detection

Modelled from the spec: the Change Detector (§4.1) of the backend service is
not in the repository snapshot. "Fingerprint = a deterministic hash of
normalized content"; the hash is modelled as the normalized content itself
(a deterministic, collision-free stand-in). -/

/-- Modelled from the spec: deterministic fingerprint of normalized content
(§4.1); the missing backend hashes file content into
`repository_files.content_hash`. -/
def fingerprint (content : String) : String := content

/-- Change-detection verdict of §4.1. -/
inductive ChangeStatus
  | unchanged
  | new
  | changed
  deriving DecidableEq, Repr

/-- Modelled from the spec: "given a previously stored fingerprint (or none)
and newly fetched content, returns `unchanged`, `new`, or `changed`"
(§4.1). -/
def detectChange (stored : Option String) (content : String) : ChangeStatus :=
  match stored with
  | none => .new
  | some fp => if fp = fingerprint content then .unchanged else .changed

/-- Bool test for the `unchanged` verdict. -/
def ChangeStatus.isUnchanged : ChangeStatus → Bool
  | .unchanged => true
  | _ => false

/-! ## Classifier, chunker, embedder, summarizer (modelled from the spec)

The backend service implementing §4.2–§4.5 is not in the repository
snapshot. -/

/-- Modelled from the spec: the Classifier (§4.2) labels repository files as
`code` or `informational` (README-like names); the ramble is classified
separately, so a repository file is never labelled `ramble`. -/
def classifyFile (path : String) : String :=
  if path = "README.md" || path = "README" then "informational" else "code"

/-- Modelled from the spec: the Embedding Generator (§4.4) maps text to one
fixed-dimension vector; modelled as the text itself (deterministic,
single consistent model). -/
def embed (text : String) : String := text

/-- Modelled from the spec: the Project Summarizer (§4.5) synthesizes all
classified content plus the ramble into one summary via one LLM call;
modelled as a deterministic function of its inputs. -/
def summarize (contents : List String) (ramble : Option String) : String :=
  String.intercalate "\n" (contents ++ [ramble.getD ""])

/-- Maximum chunk size used by the modelled chunker. -/
def maxChunkChars : Nat := 1000

/-- Fueled splitter into pieces of at most `maxSize` characters. -/
def splitAux : Nat → List Char → Nat → List (List Char)
  | 0, _, _ => []
  | _, [], _ => []
  | fuel + 1, cs, maxSize =>
      if cs.length ≤ maxSize then [cs]
      else cs.take maxSize :: splitAux fuel (cs.drop maxSize) maxSize

/-- Modelled from the spec: the Chunker (§4.3) produces an ordered finite
list of bounded pieces; empty content yields zero chunks, undersized
content yields exactly one. -/
def splitChunks (content : String) : List String :=
  (splitAux content.length content.data maxChunkChars).map List.asString

/-! ## Pipeline operations on the relational store

Modelled from the spec (§3 lifecycle, §4.1, §4.7, §9): the backend FastAPI
service that performs ingestion is not in the repository snapshot.  Content
changes are applied as delete-then-recreate, never partial patch (§9);
`unchanged` sources are skipped entirely (§4.1). -/

/-- Cost log of a run: number of embedding calls and LLM calls made. -/
structure RunLog where
  embedCalls : Nat := 0
  llmCalls : Nat := 0
  deriving DecidableEq, Repr

/-- The zero log (nothing was recomputed). -/
def RunLog.zero : RunLog := {}

/-- Pointwise sum of two run logs. -/
def RunLog.add (a b : RunLog) : RunLog :=
  { embedCalls := a.embedCalls + b.embedCalls, llmCalls := a.llmCalls + b.llmCalls }

/-- Key match for a `repository_files` row: the `UNIQUE(project_id,
file_path)` key of `001_initial_schema.sql`. -/
def fileKeyIs (pid : Nat) (path : String) (f : RepoFile) : Bool :=
  f.project_id == pid && f.file_path == path

/-- Look up a file row by its `(project_id, file_path)` key. -/
def findFile (db : DB) (pid : Nat) (path : String) : Option RepoFile :=
  db.files.find? (fileKeyIs pid path)

/-- Stored content fingerprint for a file key, if any. -/
def storedHash (db : DB) (pid : Nat) (path : String) : Option String :=
  (findFile db pid path).bind (·.content_hash)

/-- Look up a project row by primary key. -/
def findProject (db : DB) (pid : Nat) : Option Project :=
  db.projects.find? (fun p => p.project_id == pid)

/-- A fresh `repository_files` id (one more than the maximum in use). -/
def freshFileId (db : DB) : Nat :=
  (db.files.map (·.id)).foldr max 0 + 1

/-- Chunk rows produced for one file: pieces get consecutive ordinal
indices starting at `i`, the file's id and project, the classifier's type
and an embedding (§4.3, §4.4). -/
def chunkRowsFrom (fid pid : Nat) (ctype : String) (i : Nat) :
    List String → List Chunk
  | [] => []
  | piece :: rest =>
      { file_id := some fid, chunk_index := i, content := piece,
        chunk_type := ctype, embedding_vector := some (embed piece),
        project_id := some pid } :: chunkRowsFrom fid pid ctype (i + 1) rest

/-- Modelled from the spec: process one fetched file (§4.1, §9).  If change
detection says `unchanged` the file is skipped entirely; otherwise the file
row is upserted with the new fingerprint and the file's chunks are deleted
and recreated with fresh embeddings. -/
def processFile (db : DB) (pid : Nat) (path content : String) :
    DB × RunLog :=
  match detectChange (storedHash db pid path) content with
  | .unchanged => (db, RunLog.zero)
  | _ =>
      let fid := match findFile db pid path with
        | some f => f.id
        | none => freshFileId db
      let files' := match findFile db pid path with
        | some _ =>
            db.files.map (fun f =>
              if fileKeyIs pid path f then
                { f with content_hash := some (fingerprint content) }
              else f)
        | none =>
            db.files ++ [{ id := fid, project_id := pid, file_path := path,
                           content_hash := some (fingerprint content) }]
      let pieces := splitChunks content
      let newChunks := chunkRowsFrom fid pid (classifyFile path) 0 pieces
      let chunks' := db.chunks.filter (fun c => c.file_id != some fid) ++ newChunks
      ({ db with files := files', chunks := chunks' },
       { embedCalls := pieces.length, llmCalls := 0 })

/-- A chunk row is the ramble chunk of project `pid`. -/
def isRambleOf (pid : Nat) (c : Chunk) : Bool :=
  c.chunk_type == "ramble" && c.project_id == some pid

/-- The single ramble chunk stored for a project (To-Do 5: "Store each
ramble as a special chunk in the file_chunks table"): no owning file,
ordinal 0, type `ramble`, embedded. -/
def rambleChunkFor (pid : Nat) (text : String) : Chunk :=
  { file_id := none, chunk_index := 0, content := text,
    chunk_type := "ramble", embedding_vector := some (embed text),
    project_id := some pid }

/-- Modelled from the spec: process a project's ramble (§3, §4.1).  An
unchanged ramble is skipped; a new or edited ramble replaces the project's
ramble chunk (delete-then-insert, never append) and records the new
fingerprint on the project row. -/
def processRamble (db : DB) (proj : Project) : DB × RunLog :=
  match proj.star_ramble with
  | none => (db, RunLog.zero)
  | some text =>
      match detectChange proj.ramble_fingerprint text with
      | .unchanged => (db, RunLog.zero)
      | _ =>
          let chunks' := db.chunks.filter (fun c => !isRambleOf proj.project_id c)
            ++ [rambleChunkFor proj.project_id text]
          let projects' := db.projects.map (fun p =>
            if p.project_id == proj.project_id then
              { p with ramble_fingerprint := some (fingerprint text) }
            else p)
          ({ db with chunks := chunks', projects := projects' },
           { embedCalls := 1, llmCalls := 0 })

/-- Process each fetched `(path, content)` pair of a project in order. -/
def processFiles (db : DB) (pid : Nat) :
    List (String × String) → DB × RunLog
  | [] => (db, RunLog.zero)
  | pc :: rest =>
      let step := processFile db pid pc.1 pc.2
      let next := processFiles step.1 pid rest
      (next.1, step.2.add next.2)

/-- Did any fetched file of the project change (§4.1)? -/
def anyFileChanged (db : DB) (pid : Nat)
    (fetched : List (String × String)) : Bool :=
  fetched.any (fun pc => !(detectChange (storedHash db pid pc.1) pc.2).isUnchanged)

/-- Did the project's ramble change since the stored fingerprint (§4.1)? -/
def rambleChanged (proj : Project) : Bool :=
  match proj.star_ramble with
  | none => false
  | some text => !(detectChange proj.ramble_fingerprint text).isUnchanged

/-- Modelled from the spec: regenerate the project summary and its single
summary embedding from all fetched content plus the ramble (§4.5). -/
def setSummary (db : DB) (pid : Nat)
    (fetched : List (String × String)) : DB :=
  { db with projects := db.projects.map (fun p =>
      if p.project_id == pid then
        let s := summarize (fetched.map (·.2)) p.star_ramble
        { p with summary := some s,
                 summary_embedding_vector := some (embed s) }
      else p) }

/-- Modelled from the spec: process one selected project (§4.7 sequencing,
§4.1 gating).  Files and the ramble are processed with per-source change
detection; the summary (one LLM call, one embedding call) is regenerated
iff some file or the ramble changed. -/
def processProject (db : DB) (pid : Nat)
    (fetched : List (String × String)) : DB × RunLog :=
  match findProject db pid with
  | none => (db, RunLog.zero)
  | some proj =>
      if anyFileChanged db pid fetched || rambleChanged proj then
        (setSummary
            (processRamble (processFiles db pid fetched).1 proj).1 pid fetched,
         ((processFiles db pid fetched).2.add
            (processRamble (processFiles db pid fetched).1 proj).2).add
           { embedCalls := 1, llmCalls := 1 })
      else
        ((processRamble (processFiles db pid fetched).1 proj).1,
         (processFiles db pid fetched).2.add
           (processRamble (processFiles db pid fetched).1 proj).2)

/-- Modelled from the spec: one ingestion run over the selected projects,
each with its fetched files (§4.7). -/
def runIngestion (db : DB) :
    List (Nat × List (String × String)) → DB × RunLog
  | [] => (db, RunLog.zero)
  | req :: rest =>
      let step := processProject db req.1 req.2
      let next := runIngestion step.1 rest
      (next.1, step.2.add next.2)

/-- The `PATCH /api/repositories/{id}/star_ramble` endpoint (seen from
`frontend/src/app/home/page.tsx` `handleSaveRamble`): store the edited
ramble text on the project row. -/
def editRamble (db : DB) (pid : Nat) (text : String) : DB :=
  { db with projects := db.projects.map (fun p =>
      if p.project_id == pid then { p with star_ramble := some text } else p) }

/-- A fresh `projects` id. -/
def freshProjectId (db : DB) : Nat :=
  (db.projects.map (·.project_id)).foldr max 0 + 1

/-- Modelled from the spec: upsert a project keyed on the unique
`(user_id, github_url)` pair of `001_initial_schema.sql` (§3: "updated in
place on re-processing; never duplicated across repeat sign-ins").  An
existing row is updated in place (metadata only); otherwise a new row is
inserted. -/
def upsertProject (db : DB) (u : Nat) (url : String)
    (title : Option String) : DB :=
  if db.projects.any (fun p => p.user_id == u && p.github_url == url) then
    { db with projects := db.projects.map (fun p =>
        if p.user_id == u && p.github_url == url then
          { p with title := title }
        else p) }
  else
    { db with projects := db.projects ++
        [{ project_id := freshProjectId db, user_id := u,
           github_url := url, title := title }] }

/-- Insert a user row (sign-in upsert; the key columns are not changed by
any modelled operation, so only insertion matters here). -/
def insertUser (db : DB) (u : UserRow) : DB :=
  { db with users := db.users ++ [u] }

/-- Ids of the projects removed when user `u` is deleted (the
`projects.user_id` FK cascade). -/
def deadProjectIds (db : DB) (u : Nat) : List Nat :=
  (db.projects.filter (fun p => p.user_id == u)).map (·.project_id)

/-- Ids of the files removed when user `u` is deleted (the
`repository_files.project_id` FK cascade). -/
def deadFileIds (db : DB) (u : Nat) : List Nat :=
  (db.files.filter (fun f => f.project_id ∈ deadProjectIds db u)).map (·.id)

/-- Ids of the files owned by one project (the cascade set of a project
deletion). -/
def projectFileIds (db : DB) (pid : Nat) : List Nat :=
  (db.files.filter (fun f => f.project_id == pid)).map (·.id)

/-- Delete a user: the `ON DELETE CASCADE` chain of
`001_initial_schema.sql` removes the user's projects, their files, and
every chunk owned by a deleted file (`file_chunks.file_id` FK) or deleted
project (`fk_file_chunks_project_id`); a NULL FK is unaffected. -/
def deleteUser (db : DB) (u : Nat) : DB :=
  { users := db.users.filter (fun usr => usr.uid != u),
    projects := db.projects.filter (fun p => p.user_id != u),
    files := db.files.filter (fun f => f.project_id ∉ deadProjectIds db u),
    chunks := db.chunks.filter (fun c =>
      c.file_id.all (fun fid => fid ∉ deadFileIds db u) &&
      c.project_id.all (fun pid => pid ∉ deadProjectIds db u)) }

/-- Delete one project: cascades to its files and to chunks owned by the
project or by one of its files (`001_initial_schema.sql` FKs). -/
def deleteProject (db : DB) (pid : Nat) : DB :=
  { users := db.users,
    projects := db.projects.filter (fun p => p.project_id != pid),
    files := db.files.filter (fun f => f.project_id != pid),
    chunks := db.chunks.filter (fun c =>
      c.file_id.all (fun fid => fid ∉ projectFileIds db pid) &&
      c.project_id.all (fun q => q != pid)) }

/-- States reachable from the empty store by the modelled operations. -/
inductive Reachable : DB → Prop
  | init : Reachable DB.empty
  | insertUser {db} (u : UserRow) : Reachable db → Reachable (insertUser db u)
  | upsertProject {db} (u : Nat) (url : String) (t : Option String) :
      Reachable db → Reachable (upsertProject db u url t)
  | editRamble {db} (pid : Nat) (text : String) :
      Reachable db → Reachable (editRamble db pid text)
  | ingest {db} (reqs : List (Nat × List (String × String))) :
      Reachable db → Reachable (runIngestion db reqs).1
  | deleteUser {db} (u : Nat) : Reachable db → Reachable (deleteUser db u)
  | deleteProject {db} (pid : Nat) :
      Reachable db → Reachable (deleteProject db pid)

/-! ## Schema invariants

These are the constraints of the live schema (`postgres_database.json`):
the partial unique index `unique_project_ramble_chunk` on
`file_chunks(project_id) WHERE chunk_type = 'ramble'`, the Postgres
constraint `UNIQUE(file_id, chunk_index)` (NULLs distinct), and
`UNIQUE(user_id, github_url)` on `projects`. -/

/-- The partial unique index `unique_project_ramble_chunk`
(`postgres_database.json`, `file_chunks.indexes`): no two rows are both
ramble chunks of the same project. -/
def RamblePW (cs : List Chunk) : Prop :=
  cs.Pairwise (fun a b => ∀ pid, isRambleOf pid a = true → isRambleOf pid b = false)

/-- The `UNIQUE(file_id, chunk_index)` constraint of
`001_initial_schema.sql` with Postgres semantics: it bites only when both
`file_id`s are equal and non-NULL. -/
def FileChunkPW (cs : List Chunk) : Prop :=
  cs.Pairwise (fun a b => ∀ f, a.file_id = some f → b.file_id = some f →
    a.chunk_index ≠ b.chunk_index)

/-- Pipeline discipline (modelled from the spec, §3: the owning file is
"nullable for ramble chunks" only): a chunk with NULL `file_id` is a ramble
chunk and carries its owning project. -/
def NullFileShape (cs : List Chunk) : Prop :=
  ∀ c ∈ cs, c.file_id = none →
    c.chunk_type = "ramble" ∧ ∃ pid, c.project_id = some pid

/-- All chunk-table invariants together. -/
def ChunksWF (cs : List Chunk) : Prop :=
  RamblePW cs ∧ FileChunkPW cs ∧ NullFileShape cs

/-- The `UNIQUE(user_id, github_url)` constraint on `projects`
(`001_initial_schema.sql`). -/
def ProjectsUnique (ps : List Project) : Prop :=
  ps.Pairwise (fun a b => a.user_id ≠ b.user_id ∨ a.github_url ≠ b.github_url)

/-- Full well-formedness of the store. -/
def DBWF (db : DB) : Prop :=
  ChunksWF db.chunks ∧ ProjectsUnique db.projects

/-- The project's stored ramble fingerprint is current: change detection
would report its ramble unchanged. -/
def RambleFresh (db : DB) (pid : Nat) : Prop :=
  ∀ proj, findProject db pid = some proj → rambleChanged proj = false

/-- Two chunk rows live in the same source: same non-NULL owning file, or
both ramble-owned (NULL file) by the same project (§3: "ordinal indices are
unique within a source (file or project-for-ramble)"). -/
def SameSource (a b : Chunk) : Prop :=
  (∃ f, a.file_id = some f ∧ b.file_id = some f) ∨
  (a.file_id = none ∧ b.file_id = none ∧ a.project_id = b.project_id)

/-- Referential integrity as enforced by the foreign keys of
`001_initial_schema.sql`: no row references a missing owner. -/
def NoOrphans (db : DB) : Prop :=
  (∀ p ∈ db.projects, ∃ u ∈ db.users, u.uid = p.user_id) ∧
  (∀ f ∈ db.files, ∃ p ∈ db.projects, p.project_id = f.project_id) ∧
  (∀ c ∈ db.chunks,
     (∀ fid, c.file_id = some fid → ∃ f ∈ db.files, f.id = fid) ∧
     (∀ pid, c.project_id = some pid → ∃ p ∈ db.projects, p.project_id = pid))

/-! ## RAG Resume Generator (modelled from the spec, §4.8 and §7)

The backend `/api/rag_resume` endpoint (called from
`frontend/src/app/home/page.tsx` `handleSubmit`) is not in the repository
snapshot.  The vector-similarity math is a black box (§1 non-goals), so the
similarity function is a parameter; the per-project bullet-generation LLM
call is a parameter that may fail (§7 `GenerationFailure`). -/

/-- Black-box similarity function over modelled vectors (integer-scaled;
the vector-similarity math library itself is out of scope, §1). -/
abbrev SimFn := String → String → Int

/-- A stage-1 candidate: a project together with its stage-1 similarity and
its rank (position) in the stage-1 ordering. -/
structure Candidate where
  pid : Nat
  github_url : String
  summary : String
  sim : Int
  rank : Nat
  deriving DecidableEq, Repr

/-- Stage-1 eligibility: owned by the requesting user, `selected`, and
carrying a project-level summary vector (§4.8b). -/
def selectable (uid : Nat) (p : Project) : Bool :=
  p.user_id == uid && p.selected && p.summary_embedding_vector.isSome

/-- Similarity of the job-description vector to a project's summary vector. -/
def projSim (sim : SimFn) (jdVec : String) (p : Project) : Int :=
  sim jdVec (p.summary_embedding_vector.getD "")

/-- Modelled from the spec: stage-1 nearest-neighbour search over
project-level summary vectors scoped to the user's selected projects,
returning the top `n` by similarity, each with its stage-1 rank (§4.8b). -/
def stage1 (db : DB) (uid : Nat) (jd : String) (n : Nat) (sim : SimFn) :
    List Candidate :=
  let eligible := db.projects.filter (selectable uid)
  let sorted := List.insertionSort
    (fun a b => projSim sim (embed jd) b ≤ projSim sim (embed jd) a) eligible
  (sorted.take n).enum.map (fun ia =>
    { pid := ia.2.project_id, github_url := ia.2.github_url,
      summary := (ia.2.summary).getD "",
      sim := projSim sim (embed jd) ia.2, rank := ia.1 })

/-- Number of chunks retrieved per project in stage 2 (top-K, §4.8c). -/
def stage2K : Nat := 5

/-- Modelled from the spec: stage-2 nearest-neighbour search over one
project's chunk vectors (§4.8c). -/
def stage2 (db : DB) (pid : Nat) (jd : String) (sim : SimFn) : List Chunk :=
  let owned := db.chunks.filter
    (fun c => c.project_id == some pid && c.embedding_vector.isSome)
  (List.insertionSort
    (fun a b => sim (embed jd) (b.embedding_vector.getD "") ≤
                sim (embed jd) (a.embedding_vector.getD "")) owned).take stage2K

/-- LLM output for one project: title, bullets, technology list (§4.8d). -/
structure GenOutput where
  title : String
  bullets : List String
  technologies : List String
  deriving DecidableEq, Repr

/-- One returned resume entry: title, bullets, technologies, repo URL and
alignment score (§4.8 output), plus the stage-1 rank used for ties. -/
structure ResumeEntry where
  title : String
  bullets : List String
  technologies : List String
  github_url : String
  alignment_score : Int
  rank : Nat
  deriving DecidableEq, Repr

/-- Modelled from the spec: alignment score as a function of the stage-1
similarity, clamped to the fixed range 0–100 (§4.8e, README). -/
def alignScore (s : Int) : Int :=
  if 50 * (s + 1) < 0 then 0
  else if 100 < 50 * (s + 1) then 100
  else 50 * (s + 1)

/-- Failure of the resume-generation call (§7: fails outright only when
stage-1 retrieval returns zero candidates). -/
inductive RagError
  | noCandidates
  deriving DecidableEq, Repr

/-- Output order: descending alignment score, ties by stage-1 rank (§4.8). -/
def entryLE (a b : ResumeEntry) : Prop :=
  b.alignment_score < a.alignment_score ∨
  (a.alignment_score = b.alignment_score ∧ a.rank ≤ b.rank)

instance : DecidableRel entryLE := fun a b => by
  unfold entryLE
  infer_instance

instance : IsTotal ResumeEntry entryLE where
  total a b := by
    unfold entryLE
    rcases lt_trichotomy a.alignment_score b.alignment_score with h | h | h
    · exact Or.inr (Or.inl h)
    · rcases Nat.le_total a.rank b.rank with hr | hr
      · exact Or.inl (Or.inr ⟨h, hr⟩)
      · exact Or.inr (Or.inr ⟨h.symm, hr⟩)
    · exact Or.inl (Or.inl h)

instance : IsTrans ResumeEntry entryLE where
  trans a b c hab hbc := by
    unfold entryLE at *
    rcases hab with h1 | ⟨h1, r1⟩
    · rcases hbc with h2 | ⟨h2, r2⟩
      · exact Or.inl (h2.trans h1)
      · exact Or.inl (by rw [← h2]; exact h1)
    · rcases hbc with h2 | ⟨h2, r2⟩
      · exact Or.inl (by rw [h1]; exact h2)
      · exact Or.inr ⟨h1.trans h2, r1.trans r2⟩

/-- One resume entry generated for a stage-1 candidate, when the LLM call
for it succeeds (§4.8d–e). -/
def entryFor (db : DB) (jd : String) (sim : SimFn)
    (llm : Candidate → List Chunk → Option GenOutput) (c : Candidate) :
    Option ResumeEntry :=
  (llm c (stage2 db c.pid jd sim)).map (fun g =>
    { title := g.title, bullets := g.bullets,
      technologies := g.technologies, github_url := c.github_url,
      alignment_score := alignScore c.sim, rank := c.rank })

/-- Modelled from the spec: the RAG Resume Generator (§4.8, §7).  Embed the
job description; stage-1 retrieve the top `n` selected projects; fail
outright iff stage-1 returns zero candidates; otherwise per candidate run
stage-2 retrieval and a fallible LLM bullet-generation call, omitting
candidates whose call fails; return the entries sorted by descending
alignment score with ties by stage-1 rank. -/
def ragResume (db : DB) (uid : Nat) (jd : String) (n : Nat) (sim : SimFn)
    (llm : Candidate → List Chunk → Option GenOutput) :
    Except RagError (List ResumeEntry) :=
  if (stage1 db uid jd n sim).isEmpty then .error .noCandidates
  else
    .ok (List.insertionSort entryLE
      ((stage1 db uid jd n sim).filterMap (entryFor db jd sim llm)))

/-! ## Job Orchestrator (modelled from the spec, §4.7 and §5)

The background-task orchestrator behind `/api/process` and
`/api/process_status` is not in the repository snapshot.  A processing
request for a user with a `running` job is rejected (per §4.7 "queued or
rejected"); an accepted request becomes an active run whose write actions
are then interleaved step-by-step with other users' runs. -/

/-- Job status per (user, processing-request) (§4.7). -/
inductive JobStatus
  | pending
  | running
  | done
  | jobError
  deriving DecidableEq, Repr

/-- A single write action performed by a running ingestion job. -/
inductive WAction
  | wFile (pid : Nat) (path content : String)
  | wRamble (pid : Nat)
  | wSummary (pid : Nat) (fetched : List (String × String))

/-- Apply one write action to the store (the per-source operations of the
ingestion pipeline). -/
def WAction.apply : WAction → DB → DB
  | .wFile pid path content, db => (processFile db pid path content).1
  | .wRamble pid, db =>
      match findProject db pid with
      | some proj => (processRamble db proj).1
      | none => db
  | .wSummary pid fetched, db => setSummary db pid fetched

/-- Orchestrator state: per-user job status, the active runs with their
remaining write actions, and the shared store. -/
structure OrchState where
  status : Nat → JobStatus
  active : List (Nat × List WAction)
  db : DB

/-- Initial orchestrator state over a given store. -/
def OrchState.start (db : DB) : OrchState :=
  { status := fun _ => .pending, active := [], db := db }

/-- Modelled from the spec: orchestrator transitions (§4.7, §5).  `accept`
admits a request only for a user with no `running` job; `reject` is the
observable no-op for a request arriving while the user's job is `running`;
`work` lets any active run execute its next write action (runs of distinct
users interleave freely); `finish` completes an exhausted run. -/
inductive OStep : OrchState → OrchState → Prop
  | accept (s : OrchState) (u : Nat) (acts : List WAction) :
      s.status u ≠ .running →
      OStep s { status := fun v => if v = u then .running else s.status v,
                active := (u, acts) :: s.active, db := s.db }
  | reject (s : OrchState) (u : Nat) :
      s.status u = .running → OStep s s
  | work (s : OrchState) (u : Nat) (a : WAction) (rest : List WAction) :
      (u, a :: rest) ∈ s.active →
      OStep s { status := s.status,
                active := s.active.map (fun e => if e.1 = u then (u, rest) else e),
                db := a.apply s.db }
  | finish (s : OrchState) (u : Nat) :
      (u, ([] : List WAction)) ∈ s.active →
      OStep s { status := fun v => if v = u then .done else s.status v,
                active := s.active.filter (fun e => e.1 ≠ u),
                db := s.db }

/-- Orchestrator invariant: at most one active run per user, every active
run's user is `running`, and the chunk-table invariants hold. -/
def OrchInv (s : OrchState) : Prop :=
  (s.active.map Prod.fst).Nodup ∧
  (∀ e ∈ s.active, s.status e.1 = .running) ∧
  ChunksWF s.db.chunks

/-! ## Browser Supabase client (`frontend/src/lib/supabaseClient.ts`) -/

/-- `process.env.NEXT_PUBLIC_SUPABASE_URL ?? ''` (line 3). -/
def supabaseUrl : String := "NEXT_PUBLIC_SUPABASE_URL"

/-- `process.env.NEXT_PUBLIC_SUPABASE_ANON_KEY ?? ''` (line 4). -/
def supabaseAnonKey : String := "NEXT_PUBLIC_SUPABASE_ANON_KEY"

/-- A client produced by `createClient(supabaseUrl, supabaseAnonKey, ...)`
(lines 25–32): the configuration passed plus a per-creation instance id
distinguishing separate `createClient` invocations. -/
structure SupabaseClient where
  url : String
  anonKey : String
  persistSession : Bool
  autoRefreshToken : Bool
  detectSessionInUrl : Bool
  instanceId : Nat
  deriving DecidableEq, Repr

/-- Module-level mutable state of `supabaseClient.ts`: the memoized
`browserClient` (line 11) and a counter supplying fresh instance ids. -/
structure ModuleState where
  browserClient : Option SupabaseClient
  nextInstanceId : Nat
  deriving DecidableEq, Repr

/-- State at module load: `browserClient = null`. -/
def ModuleState.initial : ModuleState :=
  { browserClient := none, nextInstanceId := 0 }

/-- `getSupabaseBrowserClient` (lines 14–34): throw outside the browser;
return the memoized client if present; otherwise create one client, store
it, and return it.  `isBrowser` models `typeof window !== 'undefined'`. -/
def getSupabaseBrowserClient (isBrowser : Bool) (st : ModuleState) :
    Except String (SupabaseClient × ModuleState) :=
  if !isBrowser then
    .error "Supabase client is only available in the browser."
  else
    match st.browserClient with
    | some c => .ok (c, st)
    | none =>
        let c : SupabaseClient :=
          { url := supabaseUrl, anonKey := supabaseAnonKey,
            persistSession := true, autoRefreshToken := true,
            detectSessionInUrl := true, instanceId := st.nextInstanceId }
        .ok (c, { browserClient := some c,
                  nextInstanceId := st.nextInstanceId + 1 })

/-- The state after `k` further in-browser calls beyond a given one:
iterate `getSupabaseBrowserClient` from a state. -/
def nthBrowserCall : Nat → ModuleState →
    Except String (SupabaseClient × ModuleState)
  | 0, st => getSupabaseBrowserClient true st
  | k + 1, st =>
      match getSupabaseBrowserClient true st with
      | .ok (_, st') => nthBrowserCall k st'
      | .error e => .error e

/-! ### Concrete fixtures used by witnesses -/

/-- A store holding one user and one fully processed project. -/
def dbFix : DB :=
  { users := [{ uid := 1, username := "u", access_code := "t" }],
    projects := [{ project_id := 1, user_id := 1,
                   github_url := "https://github.com/u/r",
                   star_ramble := some "situation task action result",
                   summary := some "s", summary_embedding_vector := some "v",
                   selected := true,
                   ramble_fingerprint :=
                     some (fingerprint "situation task action result") }],
    files := [{ id := 1, project_id := 1, file_path := "main.py",
                content_hash := some (fingerprint "print(1)") }],
    chunks := [{ file_id := some 1, chunk_index := 0, content := "print(1)",
                 chunk_type := "code",
                 embedding_vector := some (embed "print(1)"),
                 project_id := some 1 }] }

/-- The fetched content of the project of `dbFix`, matching its stored
fingerprints. -/
def reqsFix : List (Nat × List (String × String)) :=
  [(1, [("main.py", "print(1)")])]

/-- The project of `dbFix` with an edited ramble whose stored fingerprint
is stale. -/
def projEdit : Project :=
  { project_id := 1, user_id := 1, github_url := "https://github.com/u/r",
    star_ramble := some "new ramble", summary := some "s",
    summary_embedding_vector := some "v", selected := true,
    ramble_fingerprint := some (fingerprint "old ramble") }

/-- `dbFix` after its project's ramble was edited but not yet re-processed. -/
def dbEdit : DB := { dbFix with projects := [projEdit] }

/-- A store with two selected, summary-indexed projects of one user. -/
def dbRag : DB :=
  { users := [{ uid := 7, username := "u", access_code := "t" }],
    projects := [
      { project_id := 1, user_id := 7,
          github_url := "https://github.com/u/r1",
          summary := some "s1", summary_embedding_vector := some "v1",
          selected := true },
      { project_id := 2, user_id := 7,
          github_url := "https://github.com/u/r2",
          summary := some "s2", summary_embedding_vector := some "v2",
          selected := true }] }

/-- A constant similarity function (the §1 black box at its simplest). -/
def simFix : SimFn := fun _ _ => 0

/-- An always-succeeding bullet generator. -/
def llmFix : Candidate → List Chunk → Option GenOutput :=
  fun _ _ => some { title := "T", bullets := ["b1", "b2", "b3"],
                    technologies := ["tech"] }

/-- A bullet generator failing for project 2 only (a §7
`GenerationFailure`). -/
def llmPartial : Candidate → List Chunk → Option GenOutput :=
  fun c chs => if c.pid == 2 then none else llmFix c chs

/-- The entries `ragResume` produces on `dbRag` with `llmFix`. -/
def lFix : List ResumeEntry :=
  [{ title := "T", bullets := ["b1", "b2", "b3"], technologies := ["tech"],
       github_url := "https://github.com/u/r1", alignment_score := 50,
       rank := 0 },
   { title := "T", bullets := ["b1", "b2", "b3"], technologies := ["tech"],
       github_url := "https://github.com/u/r2", alignment_score := 50,
       rank := 1 }]

/-- The single entry `ragResume` produces on `dbRag` with `llmPartial`. -/
def lFix1 : List ResumeEntry :=
  [{ title := "T", bullets := ["b1", "b2", "b3"], technologies := ["tech"],
       github_url := "https://github.com/u/r1", alignment_score := 50,
       rank := 0 }]

/-- The client the first in-browser `getSupabaseBrowserClient` call
creates from `ModuleState.initial`. -/
def clientFix : SupabaseClient :=
  { url := supabaseUrl, anonKey := supabaseAnonKey, persistSession := true,
    autoRefreshToken := true, detectSessionInUrl := true, instanceId := 0 }

/-- The module state after that first call. -/
def stFix : ModuleState :=
  { browserClient := some clientFix, nextInstanceId := 1 }

/-! ### Basic facts about the produced rows -/

theorem classifyFile_ne_ramble (path : String) : classifyFile path ≠ "ramble" := by
  unfold classifyFile
  split <;> simp

theorem chunkRowsFrom_mem {fid pid : Nat} {t : String} :
    ∀ {i : Nat} {l : List String} {c : Chunk}, c ∈ chunkRowsFrom fid pid t i l →
      c.file_id = some fid ∧ c.project_id = some pid ∧ c.chunk_type = t ∧
      i ≤ c.chunk_index := by
  intro i l
  induction l generalizing i with
  | nil => intro c hc; simp [chunkRowsFrom] at hc
  | cons piece rest ih =>
      intro c hc
      simp only [chunkRowsFrom, List.mem_cons] at hc
      rcases hc with rfl | hc
      · exact ⟨rfl, rfl, rfl, le_refl _⟩
      · obtain ⟨h1, h2, h3, h4⟩ := ih hc
        exact ⟨h1, h2, h3, le_trans (Nat.le_succ i) h4⟩

theorem chunkRowsFrom_pairwise {fid pid : Nat} {t : String} :
    ∀ {i : Nat} {l : List String},
      (chunkRowsFrom fid pid t i l).Pairwise
        (fun a b => a.chunk_index < b.chunk_index) := by
  intro i l
  induction l generalizing i with
  | nil => simp [chunkRowsFrom]
  | cons piece rest ih =>
      simp only [chunkRowsFrom]
      refine List.Pairwise.cons ?_ ih
      intro b hb
      have := (chunkRowsFrom_mem hb).2.2.2
      simpa using Nat.lt_of_lt_of_le (Nat.lt_succ_self i) this

theorem isRambleOf_chunkRowsFrom {fid pid q : Nat} {t : String} {i : Nat}
    {l : List String} {c : Chunk} (hc : c ∈ chunkRowsFrom fid pid t i l)
    (ht : t ≠ "ramble") : isRambleOf q c = false := by
  have h := (chunkRowsFrom_mem hc).2.2.1
  unfold isRambleOf
  rw [h]
  have hb : (t == "ramble") = false := by
    rw [beq_eq_false_iff_ne]
    exact ht
  rw [hb, Bool.false_and]

theorem isRambleOf_rambleChunkFor (pid q : Nat) (text : String) :
    isRambleOf q (rambleChunkFor pid text) = true ↔ q = pid := by
  unfold isRambleOf rambleChunkFor
  rw [show (("ramble" : String) == "ramble") = true from beq_self_eq_true _,
    Bool.true_and]
  rw [beq_iff_eq, Option.some_inj]
  exact eq_comm

/-! ### Preservation of the chunk invariants by each operation -/

theorem chunksWF_filter (cs : List Chunk) (p : Chunk → Bool)
    (h : ChunksWF cs) : ChunksWF (cs.filter p) := by
  obtain ⟨h1, h2, h3⟩ := h
  refine ⟨h1.sublist (List.filter_sublist cs), h2.sublist (List.filter_sublist cs), ?_⟩
  intro c hc
  exact h3 c (List.mem_of_mem_filter hc)

/-- Deleting a file's chunks and recreating them (the §9 delete-then-insert
pattern) preserves every chunk invariant, for any non-ramble chunk type. -/
theorem chunksWF_replaceFileChunks (cs : List Chunk) (fid pid : Nat)
    (t : String) (pieces : List String) (ht : t ≠ "ramble")
    (h : ChunksWF cs) :
    ChunksWF (cs.filter (fun c => c.file_id != some fid) ++
      chunkRowsFrom fid pid t 0 pieces) := by
  obtain ⟨h1, h2, h3⟩ := h
  refine ⟨?_, ?_, ?_⟩
  · rw [RamblePW, List.pairwise_append]
    refine ⟨h1.sublist (List.filter_sublist _), ?_, ?_⟩
    · refine List.Pairwise.imp_of_mem ?_ chunkRowsFrom_pairwise
      intro a b hma hb _ q ha
      rw [isRambleOf_chunkRowsFrom hma ht] at ha
      cases ha
    · intro a _ b hb q _
      exact isRambleOf_chunkRowsFrom hb ht
  · rw [FileChunkPW, List.pairwise_append]
    refine ⟨h2.sublist (List.filter_sublist _), ?_, ?_⟩
    · refine List.Pairwise.imp ?_ chunkRowsFrom_pairwise
      intro a b hlt f _ _
      exact Nat.ne_of_lt hlt
    · intro a ha b hb f haf hbf
      exfalso
      have hane : (a.file_id != some fid) = true := (List.mem_filter.mp ha).2
      have hbfid : b.file_id = some fid := (chunkRowsFrom_mem hb).1
      rw [hbfid] at hbf
      injection hbf with hf
      rw [bne_iff_ne] at hane
      exact hane (by rw [haf, hf])
  · intro c hc hnone
    rcases List.mem_append.mp hc with hcl | hcr
    · exact h3 c (List.mem_of_mem_filter hcl) hnone
    · have := (chunkRowsFrom_mem hcr).1
      rw [hnone] at this
      cases this

theorem chunksWF_processFile {db : DB} (pid : Nat) (path content : String)
    (h : ChunksWF db.chunks) :
    ChunksWF (processFile db pid path content).1.chunks := by
  unfold processFile
  rcases hd : detectChange (storedHash db pid path) content with _ | _ | _
  · simpa using h
  all_goals
    exact chunksWF_replaceFileChunks db.chunks _ pid _ _
      (classifyFile_ne_ramble path) h

/-- Replacing the project's ramble chunk (delete all of the project's
ramble chunks, insert the single new one) preserves every chunk
invariant — and this is what keeps `unique_project_ramble_chunk`
satisfiable on repeated ramble edits. -/
theorem chunksWF_replaceRamble (cs : List Chunk) (pid : Nat) (text : String)
    (h : ChunksWF cs) :
    ChunksWF (cs.filter (fun c => !isRambleOf pid c) ++
      [rambleChunkFor pid text]) := by
  obtain ⟨h1, h2, h3⟩ := h
  refine ⟨?_, ?_, ?_⟩
  · rw [RamblePW, List.pairwise_append]
    refine ⟨h1.sublist (List.filter_sublist _), List.pairwise_singleton _ _, ?_⟩
    intro a ha b hb q hqa
    rw [List.mem_singleton] at hb
    subst hb
    by_contra hfalse
    rw [Bool.not_eq_false, isRambleOf_rambleChunkFor] at hfalse
    subst hfalse
    have hkept : (!isRambleOf q a) = true := (List.mem_filter.mp ha).2
    rw [hqa] at hkept
    cases hkept
  · rw [FileChunkPW, List.pairwise_append]
    refine ⟨h2.sublist (List.filter_sublist _), List.pairwise_singleton _ _, ?_⟩
    intro a _ b hb f _ hbf
    rw [List.mem_singleton] at hb
    subst hb
    cases hbf
  · intro c hc hnone
    rcases List.mem_append.mp hc with hcl | hcr
    · exact h3 c (List.mem_of_mem_filter hcl) hnone
    · rw [List.mem_singleton] at hcr
      subst hcr
      exact ⟨rfl, pid, rfl⟩

theorem chunksWF_processRamble {db : DB} (proj : Project)
    (h : ChunksWF db.chunks) :
    ChunksWF (processRamble db proj).1.chunks := by
  unfold processRamble
  split
  · simpa using h
  split
  · simpa using h
  all_goals
    exact chunksWF_replaceRamble db.chunks proj.project_id _ h

theorem chunks_setSummary (db : DB) (pid : Nat)
    (fetched : List (String × String)) :
    (setSummary db pid fetched).chunks = db.chunks := rfl

theorem chunksWF_processFiles {pid : Nat}
    (fetched : List (String × String)) :
    ∀ {db : DB}, ChunksWF db.chunks →
      ChunksWF (processFiles db pid fetched).1.chunks := by
  induction fetched with
  | nil => intro db h; simpa [processFiles] using h
  | cons pc rest ih =>
      intro db h
      exact ih (chunksWF_processFile pid pc.1 pc.2 h)

theorem chunksWF_processProject {db : DB} (pid : Nat)
    (fetched : List (String × String)) (h : ChunksWF db.chunks) :
    ChunksWF (processProject db pid fetched).1.chunks := by
  unfold processProject
  split
  · simpa using h
  split
  · rw [chunks_setSummary]
    exact chunksWF_processRamble _ (chunksWF_processFiles fetched h)
  · exact chunksWF_processRamble _ (chunksWF_processFiles fetched h)

theorem chunksWF_runIngestion (reqs : List (Nat × List (String × String))) :
    ∀ {db : DB}, ChunksWF db.chunks →
      ChunksWF (runIngestion db reqs).1.chunks := by
  induction reqs with
  | nil => intro db h; simpa [runIngestion] using h
  | cons req rest ih =>
      intro db h
      exact ih (chunksWF_processProject req.1 req.2 h)

/-! ### Preservation of `ProjectsUnique` by each operation -/

theorem projectsUnique_map (l : List Project) (f : Project → Project)
    (hu : ∀ p, (f p).user_id = p.user_id)
    (hg : ∀ p, (f p).github_url = p.github_url)
    (h : ProjectsUnique l) : ProjectsUnique (l.map f) := by
  refine List.Pairwise.map f ?_ h
  intro a b hab
  rcases hab with h1 | h2
  · exact Or.inl (by rw [hu, hu]; exact h1)
  · exact Or.inr (by rw [hg, hg]; exact h2)

theorem projectsUnique_processFile {db : DB} (pid : Nat)
    (path content : String) (h : ProjectsUnique db.projects) :
    ProjectsUnique (processFile db pid path content).1.projects := by
  unfold processFile
  split
  · simpa using h
  all_goals simpa using h

theorem projectsUnique_processRamble {db : DB} (proj : Project)
    (h : ProjectsUnique db.projects) :
    ProjectsUnique (processRamble db proj).1.projects := by
  unfold processRamble
  split
  · simpa using h
  split
  · simpa using h
  all_goals
    exact projectsUnique_map db.projects _
      (fun p => by split <;> rfl)
      (fun p => by split <;> rfl) h

theorem projectsUnique_setSummary {db : DB} (pid : Nat)
    (fetched : List (String × String)) (h : ProjectsUnique db.projects) :
    ProjectsUnique (setSummary db pid fetched).projects := by
  unfold setSummary
  exact projectsUnique_map db.projects _
    (fun p => by split <;> rfl)
    (fun p => by split <;> rfl) h

theorem projectsUnique_processFiles {pid : Nat}
    (fetched : List (String × String)) :
    ∀ {db : DB}, ProjectsUnique db.projects →
      ProjectsUnique (processFiles db pid fetched).1.projects := by
  induction fetched with
  | nil => intro db h; simpa [processFiles] using h
  | cons pc rest ih =>
      intro db h
      exact ih (projectsUnique_processFile pid pc.1 pc.2 h)

theorem projectsUnique_processProject {db : DB} (pid : Nat)
    (fetched : List (String × String)) (h : ProjectsUnique db.projects) :
    ProjectsUnique (processProject db pid fetched).1.projects := by
  unfold processProject
  split
  · simpa using h
  split
  · exact projectsUnique_setSummary pid fetched
      (projectsUnique_processRamble _ (projectsUnique_processFiles fetched h))
  · exact projectsUnique_processRamble _ (projectsUnique_processFiles fetched h)

theorem projectsUnique_runIngestion
    (reqs : List (Nat × List (String × String))) :
    ∀ {db : DB}, ProjectsUnique db.projects →
      ProjectsUnique (runIngestion db reqs).1.projects := by
  induction reqs with
  | nil => intro db h; simpa [runIngestion] using h
  | cons req rest ih =>
      intro db h
      exact ih (projectsUnique_processProject req.1 req.2 h)

theorem projectsUnique_upsertProject {db : DB} (u : Nat) (url : String)
    (t : Option String) (h : ProjectsUnique db.projects) :
    ProjectsUnique (upsertProject db u url t).projects := by
  unfold upsertProject
  split
  · exact projectsUnique_map db.projects _
      (fun p => by split <;> rfl)
      (fun p => by split <;> rfl) h
  · rename_i hany
    rw [Bool.not_eq_true, List.any_eq_false] at hany
    rw [ProjectsUnique, List.pairwise_append]
    refine ⟨h, List.pairwise_singleton _ _, ?_⟩
    intro a ha b hb
    rw [List.mem_singleton] at hb
    subst hb
    have := hany a ha
    by_cases hu : a.user_id = u
    · right
      intro hcontra
      exact this (by rw [Bool.and_eq_true, beq_iff_eq, beq_iff_eq]; exact ⟨hu, hcontra⟩)
    · left
      exact hu

/-! ### Well-formedness of every reachable store -/

theorem dbwf_reachable {db : DB} (h : Reachable db) : DBWF db := by
  induction h with
  | init => exact ⟨⟨List.Pairwise.nil, List.Pairwise.nil, by intro c hc; cases hc⟩,
      List.Pairwise.nil⟩
  | insertUser u _ ih => exact ⟨ih.1, ih.2⟩
  | upsertProject u url t _ ih =>
      refine ⟨?_, projectsUnique_upsertProject u url t ih.2⟩
      unfold upsertProject
      split
      · exact ih.1
      · exact ih.1
  | editRamble pid text _ ih =>
      refine ⟨ih.1, ?_⟩
      exact projectsUnique_map _ _
        (fun p => by split <;> rfl)
        (fun p => by split <;> rfl) ih.2
  | ingest reqs _ ih =>
      exact ⟨chunksWF_runIngestion reqs ih.1, projectsUnique_runIngestion reqs ih.2⟩
  | deleteUser u _ ih =>
      exact ⟨chunksWF_filter _ _ ih.1, ih.2.sublist (List.filter_sublist _)⟩
  | deleteProject pid _ ih =>
      exact ⟨chunksWF_filter _ _ ih.1, ih.2.sublist (List.filter_sublist _)⟩

/-! ### Change-detection and lookup facts -/

theorem detectChange_unchanged_iff (st : Option String) (c : String) :
    detectChange st c = .unchanged ↔ st = some (fingerprint c) := by
  unfold detectChange
  cases st with
  | none => simp
  | some fp =>
      by_cases h : fp = fingerprint c
      · simp [h]
      · simp [h]

theorem isUnchanged_iff (cs : ChangeStatus) :
    cs.isUnchanged = true ↔ cs = .unchanged := by
  cases cs <;> simp [ChangeStatus.isUnchanged]

theorem find?_map_comm {α : Type _} (l : List α) (f : α → α) (q : α → Bool)
    (hq : ∀ a, q (f a) = q a) : (l.map f).find? q = (l.find? q).map f := by
  induction l with
  | nil => rfl
  | cons a t ih =>
      simp only [List.map_cons]
      cases hqa : q a with
      | true =>
          rw [List.find?_cons_of_pos _ (by rw [hq a]; exact hqa),
            List.find?_cons_of_pos _ hqa]
          rfl
      | false =>
          rw [List.find?_cons_of_neg _ (by simp [hq a, hqa]),
            List.find?_cons_of_neg _ (by simp [hqa])]
          exact ih

theorem find?_map_fix {α : Type _} (l : List α) (f : α → α) (q : α → Bool)
    (hq : ∀ a, q (f a) = q a) (hfix : ∀ a, q a = true → f a = a) :
    (l.map f).find? q = l.find? q := by
  rw [find?_map_comm l f q hq]
  cases h : l.find? q with
  | none => rfl
  | some r => simp [hfix r (List.find?_some h)]

theorem fileKeyIs_update (pid : Nat) (path : String) (pid' : Nat)
    (path' : String) (content : String) (a : RepoFile) :
    fileKeyIs pid' path'
      (if fileKeyIs pid path a then
        { a with content_hash := some (fingerprint content) } else a) =
    fileKeyIs pid' path' a := by
  split <;> rfl

theorem fileKeyIs_mk (pid : Nat) (path : String) (i : Nat)
    (h : Option String) :
    fileKeyIs pid path
      { id := i, project_id := pid, file_path := path,
        content_hash := h } = true := by
  unfold fileKeyIs
  rw [Bool.and_eq_true]
  exact ⟨beq_self_eq_true _, beq_self_eq_true _⟩

/-- After processing a file, its stored fingerprint is the fingerprint of
the content just processed. -/
theorem storedHash_processFile_self (db : DB) (pid : Nat)
    (path content : String) :
    storedHash (processFile db pid path content).1 pid path =
      some (fingerprint content) := by
  unfold processFile
  rcases hd : detectChange (storedHash db pid path) content with _ | _ | _
  · rw [detectChange_unchanged_iff] at hd
    simpa using hd
  all_goals {
    rcases hff : findFile db pid path with _ | f0
    · show storedHash _ pid path = _
      unfold storedHash findFile
      show ((db.files ++
        [({ id := freshFileId db, project_id := pid, file_path := path,
            content_hash := some (fingerprint content) } : RepoFile)]).find?
          (fileKeyIs pid path)).bind _ = _
      rw [List.find?_append]
      unfold findFile at hff
      rw [hff]
      rw [List.find?_cons_of_pos _ (fileKeyIs_mk pid path _ _)]
      rfl
    · show storedHash _ pid path = _
      unfold storedHash findFile
      show ((db.files.map _).find? (fileKeyIs pid path)).bind _ = _
      rw [find?_map_comm _ _ _
        (fun a => fileKeyIs_update pid path pid path content a)]
      unfold findFile at hff
      rw [hff]
      simp only [Option.map_some', Option.some_bind]
      rw [if_pos (List.find?_some hff)]
            }

/-- Processing one file leaves every other file key's stored fingerprint
untouched. -/
theorem storedHash_processFile_other (db : DB) (pid : Nat)
    (path content : String) (pid' : Nat) (path' : String)
    (hk : ¬(pid' = pid ∧ path' = path)) :
    storedHash (processFile db pid path content).1 pid' path' =
      storedHash db pid' path' := by
  have hkey : ∀ a : RepoFile, fileKeyIs pid' path' a = true →
      fileKeyIs pid path a = false := by
    intro a ha
    unfold fileKeyIs at ha ⊢
    rw [Bool.and_eq_true, beq_iff_eq, beq_iff_eq] at ha
    by_contra hcontra
    rw [Bool.not_eq_false, Bool.and_eq_true, beq_iff_eq, beq_iff_eq] at hcontra
    exact hk ⟨by rw [← ha.1, hcontra.1], by rw [← ha.2, hcontra.2]⟩
  unfold processFile
  rcases hd : detectChange (storedHash db pid path) content with _ | _ | _
  · rfl
  all_goals {
    rcases hff : findFile db pid path with _ | f0
    · show storedHash _ pid' path' = _
      unfold storedHash findFile
      show ((db.files ++
        [({ id := freshFileId db, project_id := pid, file_path := path,
            content_hash := some (fingerprint content) } : RepoFile)]).find?
          (fileKeyIs pid' path')).bind _ = _
      rw [List.find?_append]
      have hrow : fileKeyIs pid' path'
          ({ id := freshFileId db, project_id := pid, file_path := path,
             content_hash := some (fingerprint content) } : RepoFile) = false := by
        by_contra hcontra
        rw [Bool.not_eq_false] at hcontra
        have := hkey _ hcontra
        rw [fileKeyIs_mk] at this
        cases this
      rw [List.find?_cons_of_neg _ (by simp [hrow]), List.find?_nil]
      cases h : (db.files.find? (fileKeyIs pid' path')) <;> rfl
    · show storedHash _ pid' path' = _
      unfold storedHash findFile
      show ((db.files.map _).find? (fileKeyIs pid' path')).bind _ = _
      rw [find?_map_fix _ _ _
        (fun a => fileKeyIs_update pid path pid' path' content a)
        (fun a ha => by
          rw [if_neg]
          rw [hkey a ha]
          exact fun hcontra => by cases hcontra)]
            }

/-- Change detection reporting `unchanged` makes `processFile` a no-op. -/
theorem processFile_unchanged_eq (db : DB) (pid : Nat) (path content : String)
    (h : detectChange (storedHash db pid path) content = .unchanged) :
    processFile db pid path content = (db, RunLog.zero) := by
  unfold processFile
  rw [h]

/-! ### Field-preservation equations -/

theorem projects_processFile (db : DB) (pid : Nat) (path content : String) :
    (processFile db pid path content).1.projects = db.projects := by
  unfold processFile
  split <;> rfl

theorem projects_processFiles (fetched : List (String × String)) :
    ∀ {db : DB} {pid : Nat},
      (processFiles db pid fetched).1.projects = db.projects := by
  induction fetched with
  | nil => intro db pid; rfl
  | cons pc rest ih =>
      intro db pid
      show (processFiles (processFile db pid pc.1 pc.2).1 pid rest).1.projects = _
      rw [ih, projects_processFile]

theorem files_processRamble (db : DB) (proj : Project) :
    (processRamble db proj).1.files = db.files := by
  unfold processRamble
  split
  · rfl
  split <;> rfl

theorem storedHash_congr_files (db db' : DB) (h : db.files = db'.files)
    (pid : Nat) (path : String) :
    storedHash db pid path = storedHash db' pid path := by
  unfold storedHash findFile
  rw [h]

theorem processRamble_llm (db : DB) (proj : Project) :
    (processRamble db proj).2.llmCalls = 0 := by
  unfold processRamble
  split
  · rfl
  split <;> rfl

/-! ### Stored fingerprints after a batch of files -/

theorem storedHash_processFiles_other (fetched : List (String × String)) :
    ∀ {db : DB} {pid pid' : Nat} {path' : String},
      (∀ pc ∈ fetched, ¬(pid' = pid ∧ path' = pc.1)) →
      storedHash (processFiles db pid fetched).1 pid' path' =
        storedHash db pid' path' := by
  induction fetched with
  | nil => intro db pid pid' path' _; rfl
  | cons pc rest ih =>
      intro db pid pid' path' h
      show storedHash (processFiles (processFile db pid pc.1 pc.2).1 pid rest).1
        pid' path' = _
      rw [ih (fun pc' hpc' => h pc' (List.mem_cons_of_mem pc hpc')),
        storedHash_processFile_other db pid pc.1 pc.2 pid' path'
          (h pc (List.mem_cons_self pc rest))]

theorem storedHash_processFiles_mem (fetched : List (String × String)) :
    ∀ {db : DB} {pid : Nat}, (fetched.map Prod.fst).Nodup →
      ∀ pc ∈ fetched,
        storedHash (processFiles db pid fetched).1 pid pc.1 =
          some (fingerprint pc.2) := by
  induction fetched with
  | nil => intro db pid _ pc hpc; cases hpc
  | cons pc0 rest ih =>
      intro db pid hnd pc hpc
      have hnd' : pc0.1 ∉ rest.map Prod.fst ∧ (rest.map Prod.fst).Nodup := by
        rw [List.map_cons, List.nodup_cons] at hnd
        exact hnd
      rcases List.mem_cons.mp hpc with rfl | hmem
      · show storedHash (processFiles (processFile db pid pc.1 pc.2).1 pid rest).1
          pid pc.1 = _
        rw [storedHash_processFiles_other rest (fun pc' hpc' => by
          rintro ⟨_, h2⟩
          exact hnd'.1 (h2 ▸ List.mem_map_of_mem Prod.fst hpc'))]
        exact storedHash_processFile_self db pid pc.1 pc.2
      · show storedHash (processFiles (processFile db pid pc0.1 pc0.2).1 pid rest).1
          pid pc.1 = _
        exact ih hnd'.2 pc hmem

theorem processFiles_unchanged_eq (fetched : List (String × String)) :
    ∀ {db : DB} {pid : Nat},
      (∀ pc ∈ fetched,
        detectChange (storedHash db pid pc.1) pc.2 = .unchanged) →
      processFiles db pid fetched = (db, RunLog.zero) := by
  induction fetched with
  | nil => intro db pid _; rfl
  | cons pc rest ih =>
      intro db pid h
      have hstep : processFile db pid pc.1 pc.2 = (db, RunLog.zero) :=
        processFile_unchanged_eq db pid pc.1 pc.2 (h pc (List.mem_cons_self pc rest))
      show ((processFiles (processFile db pid pc.1 pc.2).1 pid rest).1,
        (processFile db pid pc.1 pc.2).2.add
          (processFiles (processFile db pid pc.1 pc.2).1 pid rest).2) = _
      rw [hstep]
      show ((processFiles db pid rest).1,
        RunLog.zero.add (processFiles db pid rest).2) = _
      rw [ih (fun pc' hpc' => h pc' (List.mem_cons_of_mem pc hpc'))]
      rfl

/-! ### The project row after ramble processing -/

theorem findProject_some_pid {db : DB} {pid : Nat} {proj : Project}
    (h : findProject db pid = some proj) : proj.project_id = pid := by
  have := List.find?_some h
  exact beq_iff_eq.mp this

theorem findProject_map_fingerprint (l : List Project) (pid0 : Nat)
    (v : Option String) (pid : Nat) :
    (l.map (fun q => if q.project_id == pid0 then
        { q with ramble_fingerprint := v } else q)).find?
        (fun p => p.project_id == pid) =
    (l.find? (fun p => p.project_id == pid)).map
      (fun q => if q.project_id == pid0 then
        { q with ramble_fingerprint := v } else q) :=
  find?_map_comm _ _ _ (fun q => by split <;> rfl)

theorem rambleChanged_eq_of (p : Project) (text : String)
    (hsr : p.star_ramble = some text) :
    rambleChanged p = !(detectChange p.ramble_fingerprint text).isUnchanged := by
  unfold rambleChanged
  rw [hsr]

theorem rambleChanged_false_processRamble (db : DB) (proj : Project)
    (h : rambleChanged proj = false) :
    processRamble db proj = (db, RunLog.zero) := by
  unfold rambleChanged at h
  unfold processRamble
  split
  · rfl
  split
  · rfl
  · rename_i text hsr x hne
    exfalso
    rw [hsr] at h
    rw [Bool.not_eq_false'] at h
    rw [isUnchanged_iff] at h
    exact hne h

theorem rambleFresh_processRamble (db : DB) (pid : Nat) (proj : Project)
    (hfind : findProject db pid = some proj) :
    RambleFresh (processRamble db proj).1 pid := by
  unfold processRamble
  split
  · rename_i hsr
    intro p hp
    rw [show ((db, RunLog.zero) : DB × RunLog).1 = db from rfl] at hp
    rw [hfind] at hp
    injection hp with hp
    subst hp
    unfold rambleChanged
    rw [hsr]
  split
  · rename_i text hsr x hd
    intro p hp
    rw [show ((db, RunLog.zero) : DB × RunLog).1 = db from rfl] at hp
    rw [hfind] at hp
    injection hp with hp
    subst hp
    rw [rambleChanged_eq_of proj text hsr, hd]
    rfl
  · rename_i text hsr x hne
    intro p hp
    have hp' : (db.projects.map (fun q =>
        if q.project_id == proj.project_id then
          { q with ramble_fingerprint := some (fingerprint text) }
        else q)).find? (fun q => q.project_id == pid) = some p := hp
    rw [findProject_map_fingerprint] at hp'
    unfold findProject at hfind
    rw [hfind] at hp'
    rw [Option.map_some'] at hp'
    rw [if_pos (by rw [beq_iff_eq])] at hp'
    injection hp' with hp'
    subst hp'
    have hrw := rambleChanged_eq_of
      { proj with ramble_fingerprint := some (fingerprint text) } text hsr
    rw [hrw]
    show (!(detectChange (some (fingerprint text)) text).isUnchanged) = false
    rw [(detectChange_unchanged_iff (some (fingerprint text)) text).mpr rfl]
    rfl

/-! ### Stability of lookups under processing of other sources -/

theorem rambleChanged_congr (a b : Project) (h1 : a.star_ramble = b.star_ramble)
    (h2 : a.ramble_fingerprint = b.ramble_fingerprint) :
    rambleChanged a = rambleChanged b := by
  unfold rambleChanged
  rw [h1, h2]

theorem findProject_processFiles (fetched : List (String × String))
    {db : DB} {pid pid0 : Nat} :
    findProject (processFiles db pid fetched).1 pid0 = findProject db pid0 := by
  unfold findProject
  rw [projects_processFiles]

theorem findProject_processRamble_other (db : DB) (proj : Project)
    (pid0 : Nat) (hne : proj.project_id ≠ pid0) :
    findProject (processRamble db proj).1 pid0 = findProject db pid0 := by
  unfold processRamble
  split
  · rfl
  split
  · rfl
  · rename_i text hsr x hnu
    show (db.projects.map (fun q =>
      if q.project_id == proj.project_id then
        { q with ramble_fingerprint := some (fingerprint text) }
      else q)).find? (fun p => p.project_id == pid0) = _
    rw [find?_map_fix _ _ _ (fun q => by split <;> rfl)
      (fun a ha => by
        have hcond : (a.project_id == proj.project_id) = false := by
          rw [beq_eq_false_iff_ne]
          rw [beq_iff_eq] at ha
          rw [ha]
          exact fun hc => hne hc.symm
        rw [hcond]
        simp)]
    rfl

theorem findProject_setSummary_other (db : DB) (pid : Nat)
    (fetched : List (String × String)) (pid0 : Nat) (hne : pid ≠ pid0) :
    findProject (setSummary db pid fetched) pid0 = findProject db pid0 := by
  unfold setSummary findProject
  show (db.projects.map _).find? (fun p : Project => p.project_id == pid0) = _
  rw [find?_map_fix _ _ _ (fun q => by split <;> rfl)
    (fun a ha => by
      have hcond : (a.project_id == pid) = false := by
        rw [beq_eq_false_iff_ne]
        rw [beq_iff_eq] at ha
        rw [ha]
        exact fun hc => hne hc.symm
      rw [hcond]
      simp)]

theorem rambleFresh_setSummary (db : DB) (pid0 : Nat)
    (fetched : List (String × String)) (pid : Nat)
    (h : RambleFresh db pid) : RambleFresh (setSummary db pid0 fetched) pid := by
  intro p hp
  have hp' : (db.projects.map (fun q =>
      if q.project_id == pid0 then
        let s := summarize (fetched.map (·.2)) q.star_ramble
        { q with summary := some s,
                 summary_embedding_vector := some (embed s) }
      else q)).find? (fun q => q.project_id == pid) = some p := hp
  rw [find?_map_comm _ _ _ (fun q => by split <;> rfl)] at hp'
  cases hq : db.projects.find? (fun q => q.project_id == pid) with
  | none => rw [hq] at hp'; cases hp'
  | some p0 =>
      rw [hq, Option.map_some'] at hp'
      injection hp' with hp'
      subst hp'
      rw [rambleChanged_congr _ p0 (by split <;> rfl) (by split <;> rfl)]
      exact h p0 hq

theorem storedHash_processProject_other (db : DB) (pid : Nat)
    (fetched : List (String × String)) (pid0 : Nat) (path' : String)
    (hne : pid0 ≠ pid) :
    storedHash (processProject db pid fetched).1 pid0 path' =
      storedHash db pid0 path' := by
  unfold processProject
  split
  · rfl
  rename_i proj heq
  split
  · calc storedHash (setSummary
          (processRamble (processFiles db pid fetched).1 proj).1 pid fetched)
          pid0 path'
        = storedHash (processRamble (processFiles db pid fetched).1 proj).1
            pid0 path' := rfl
      _ = storedHash (processFiles db pid fetched).1 pid0 path' :=
          storedHash_congr_files _ _ (files_processRamble _ _) pid0 path'
      _ = storedHash db pid0 path' :=
          storedHash_processFiles_other fetched (fun pc _ h => hne h.1)
  · calc storedHash (processRamble (processFiles db pid fetched).1 proj).1
          pid0 path'
        = storedHash (processFiles db pid fetched).1 pid0 path' :=
          storedHash_congr_files _ _ (files_processRamble _ _) pid0 path'
      _ = storedHash db pid0 path' :=
          storedHash_processFiles_other fetched (fun pc _ h => hne h.1)

theorem findProject_processProject_other (db : DB) (pid : Nat)
    (fetched : List (String × String)) (pid0 : Nat) (hne : pid ≠ pid0) :
    findProject (processProject db pid fetched).1 pid0 = findProject db pid0 := by
  unfold processProject
  split
  · rfl
  rename_i proj heq
  have hpp : proj.project_id ≠ pid0 := by
    rw [findProject_some_pid heq]
    exact hne
  split
  · calc findProject (setSummary
          (processRamble (processFiles db pid fetched).1 proj).1 pid fetched) pid0
        = findProject (processRamble (processFiles db pid fetched).1 proj).1
            pid0 := findProject_setSummary_other _ _ _ _ hne
      _ = findProject (processFiles db pid fetched).1 pid0 :=
          findProject_processRamble_other _ _ _ hpp
      _ = findProject db pid0 := findProject_processFiles fetched
  · calc findProject (processRamble (processFiles db pid fetched).1 proj).1 pid0
        = findProject (processFiles db pid fetched).1 pid0 :=
          findProject_processRamble_other _ _ _ hpp
      _ = findProject db pid0 := findProject_processFiles fetched

/-! ### Freshness and no-op behaviour of `processProject` -/

theorem storedHash_processProject_mem (db : DB) (pid : Nat)
    (fetched : List (String × String))
    (hnd : (fetched.map Prod.fst).Nodup) {proj : Project}
    (hf : findProject db pid = some proj) (pc : String × String)
    (hpc : pc ∈ fetched) :
    storedHash (processProject db pid fetched).1 pid pc.1 =
      some (fingerprint pc.2) := by
  unfold processProject
  split
  · rename_i heq
    rw [heq] at hf
    cases hf
  rename_i proj' heq
  split
  · calc storedHash (setSummary
          (processRamble (processFiles db pid fetched).1 proj').1 pid fetched)
          pid pc.1
        = storedHash (processRamble (processFiles db pid fetched).1 proj').1
            pid pc.1 := rfl
      _ = storedHash (processFiles db pid fetched).1 pid pc.1 :=
          storedHash_congr_files _ _ (files_processRamble _ _) pid pc.1
      _ = some (fingerprint pc.2) := storedHash_processFiles_mem fetched hnd pc hpc
  · calc storedHash (processRamble (processFiles db pid fetched).1 proj').1
          pid pc.1
        = storedHash (processFiles db pid fetched).1 pid pc.1 :=
          storedHash_congr_files _ _ (files_processRamble _ _) pid pc.1
      _ = some (fingerprint pc.2) := storedHash_processFiles_mem fetched hnd pc hpc

theorem rambleFresh_processProject (db : DB) (pid : Nat)
    (fetched : List (String × String)) :
    RambleFresh (processProject db pid fetched).1 pid := by
  unfold processProject
  split
  · rename_i heq
    intro p hp
    rw [show ((db, RunLog.zero) : DB × RunLog).1 = db from rfl] at hp
    rw [heq] at hp
    cases hp
  rename_i proj heq
  have hfind1 : findProject (processFiles db pid fetched).1 pid = some proj := by
    rw [findProject_processFiles]
    exact heq
  split
  · exact rambleFresh_setSummary _ _ _ _
      (rambleFresh_processRamble _ pid proj hfind1)
  · exact rambleFresh_processRamble _ pid proj hfind1

theorem processProject_idem (db : DB) (pid : Nat)
    (fetched : List (String × String))
    (hfiles : ∀ pc ∈ fetched,
      detectChange (storedHash db pid pc.1) pc.2 = .unchanged)
    (hramble : RambleFresh db pid) :
    processProject db pid fetched = (db, RunLog.zero) := by
  unfold processProject
  split
  · rfl
  rename_i proj heq
  have hrc : rambleChanged proj = false := hramble proj heq
  have hafc : anyFileChanged db pid fetched = false := by
    unfold anyFileChanged
    rw [List.any_eq_false]
    intro pc hpc
    rw [hfiles pc hpc]
    simp [ChangeStatus.isUnchanged]
  rw [hafc, hrc]
  rw [if_neg (by simp)]
  rw [processFiles_unchanged_eq fetched hfiles]
  show ((processRamble db proj).1, RunLog.zero.add (processRamble db proj).2) = _
  rw [rambleChanged_false_processRamble db proj hrc]
  rfl

/-! ### Run-level stability and idempotence -/

theorem storedHash_runIngestion_other
    (reqs : List (Nat × List (String × String))) :
    ∀ {db : DB} {pid0 : Nat} {path : String},
      (∀ req ∈ reqs, req.1 ≠ pid0) →
      storedHash (runIngestion db reqs).1 pid0 path =
        storedHash db pid0 path := by
  induction reqs with
  | nil => intro db pid0 path _; rfl
  | cons req rest ih =>
      intro db pid0 path h
      show storedHash
        (runIngestion (processProject db req.1 req.2).1 rest).1 pid0 path = _
      rw [ih (fun r hr => h r (List.mem_cons_of_mem req hr)),
        storedHash_processProject_other db req.1 req.2 pid0 path
          (h req (List.mem_cons_self req rest)).symm]

theorem findProject_runIngestion_other
    (reqs : List (Nat × List (String × String))) :
    ∀ {db : DB} {pid0 : Nat},
      (∀ req ∈ reqs, req.1 ≠ pid0) →
      findProject (runIngestion db reqs).1 pid0 = findProject db pid0 := by
  induction reqs with
  | nil => intro db pid0 _; rfl
  | cons req rest ih =>
      intro db pid0 h
      show findProject
        (runIngestion (processProject db req.1 req.2).1 rest).1 pid0 = _
      rw [ih (fun r hr => h r (List.mem_cons_of_mem req hr)),
        findProject_processProject_other db req.1 req.2 pid0
          (h req (List.mem_cons_self req rest))]

theorem runIngestion_fresh (reqs : List (Nat × List (String × String))) :
    ∀ {db : DB},
      (reqs.map Prod.fst).Nodup →
      (∀ req ∈ reqs, (req.2.map Prod.fst).Nodup) →
      (∀ req ∈ reqs, (findProject db req.1).isSome) →
      ∀ req ∈ reqs,
        (∀ pc ∈ req.2,
          detectChange (storedHash (runIngestion db reqs).1 req.1 pc.1) pc.2
            = .unchanged) ∧
        RambleFresh (runIngestion db reqs).1 req.1 := by
  induction reqs with
  | nil => intro db _ _ _ req hreq; cases hreq
  | cons req0 rest ih =>
      intro db hpids hpaths hex req hreq
      have hpid_split : req0.1 ∉ rest.map Prod.fst ∧
          (rest.map Prod.fst).Nodup := by
        rw [List.map_cons, List.nodup_cons] at hpids
        exact hpids
      rcases List.mem_cons.mp hreq with rfl | hmem
      · obtain ⟨proj, hproj⟩ := Option.isSome_iff_exists.mp
          (hex req (List.mem_cons_self _ _))
        have hrest_ne : ∀ r ∈ rest, r.1 ≠ req.1 := by
          intro r hr hc
          exact hpid_split.1 (hc ▸ List.mem_map_of_mem Prod.fst hr)
        constructor
        · intro pc hpc
          show detectChange (storedHash
            (runIngestion (processProject db req.1 req.2).1 rest).1
            req.1 pc.1) pc.2 = _
          rw [storedHash_runIngestion_other rest hrest_ne]
          rw [storedHash_processProject_mem db req.1 req.2
            (hpaths req (List.mem_cons_self _ _)) hproj pc hpc]
          rw [detectChange_unchanged_iff]
        · intro p hp
          have hp' : findProject
              (runIngestion (processProject db req.1 req.2).1 rest).1 req.1
              = some p := hp
          rw [findProject_runIngestion_other rest hrest_ne] at hp'
          exact rambleFresh_processProject db req.1 req.2 p hp'
      · have hex' : ∀ r ∈ rest,
            (findProject (processProject db req0.1 req0.2).1 r.1).isSome := by
          intro r hr
          have hne : req0.1 ≠ r.1 := by
            intro hc
            exact hpid_split.1 (by rw [hc]; exact List.mem_map_of_mem Prod.fst hr)
          rw [findProject_processProject_other db req0.1 req0.2 r.1 hne]
          exact hex r (List.mem_cons_of_mem _ hr)
        exact ih hpid_split.2
          (fun r hr => hpaths r (List.mem_cons_of_mem _ hr)) hex' req hmem

theorem runIngestion_idem (reqs : List (Nat × List (String × String))) :
    ∀ {db : DB},
      (reqs.map Prod.fst).Nodup →
      (∀ req ∈ reqs, (req.2.map Prod.fst).Nodup) →
      (∀ req ∈ reqs, (findProject db req.1).isSome) →
      runIngestion (runIngestion db reqs).1 reqs =
        ((runIngestion db reqs).1, RunLog.zero) := by
  induction reqs with
  | nil => intro db _ _ _; rfl
  | cons req0 rest ih =>
      intro db hpids hpaths hex
      have hpid_split : req0.1 ∉ rest.map Prod.fst ∧
          (rest.map Prod.fst).Nodup := by
        rw [List.map_cons, List.nodup_cons] at hpids
        exact hpids
      have hfresh := runIngestion_fresh (req0 :: rest) hpids hpaths hex req0
        (List.mem_cons_self _ _)
      have hhead : processProject (runIngestion db (req0 :: rest)).1 req0.1 req0.2
          = ((runIngestion db (req0 :: rest)).1, RunLog.zero) :=
        processProject_idem _ req0.1 req0.2 hfresh.1 hfresh.2
      have hex' : ∀ r ∈ rest,
          (findProject (processProject db req0.1 req0.2).1 r.1).isSome := by
        intro r hr
        have hne : req0.1 ≠ r.1 := by
          intro hc
          exact hpid_split.1 (by rw [hc]; exact List.mem_map_of_mem Prod.fst hr)
        rw [findProject_processProject_other db req0.1 req0.2 r.1 hne]
        exact hex r (List.mem_cons_of_mem _ hr)
      have htail := ih hpid_split.2
        (fun r hr => hpaths r (List.mem_cons_of_mem _ hr)) hex'
      show ((runIngestion
          (processProject (runIngestion db (req0 :: rest)).1 req0.1 req0.2).1
          rest).1,
        (processProject (runIngestion db (req0 :: rest)).1 req0.1 req0.2).2.add
          (runIngestion
            (processProject (runIngestion db (req0 :: rest)).1 req0.1 req0.2).1
            rest).2)
        = ((runIngestion db (req0 :: rest)).1, RunLog.zero)
      rw [hhead]
      show ((runIngestion
          (runIngestion (processProject db req0.1 req0.2).1 rest).1 rest).1,
        RunLog.zero.add (runIngestion
          (runIngestion (processProject db req0.1 req0.2).1 rest).1 rest).2)
        = ((runIngestion (processProject db req0.1 req0.2).1 rest).1, RunLog.zero)
      rw [htail]
      rfl

/-! ### Summary regeneration on a ramble edit -/

theorem findProject_processRamble_self (db : DB) (proj : Project) (pid : Nat)
    (hfind : findProject db pid = some proj) :
    ∃ proj1, findProject (processRamble db proj).1 pid = some proj1 ∧
      proj1.star_ramble = proj.star_ramble := by
  unfold processRamble
  split
  · exact ⟨proj, hfind, rfl⟩
  split
  · exact ⟨proj, hfind, rfl⟩
  · rename_i text hsr x hne
    refine ⟨{ proj with ramble_fingerprint := some (fingerprint text) }, ?_, rfl⟩
    show (db.projects.map _).find? (fun q : Project => q.project_id == pid) = _
    rw [findProject_map_fingerprint]
    unfold findProject at hfind
    rw [hfind, Option.map_some']
    rw [if_pos (by rw [beq_iff_eq])]

theorem findProject_setSummary_self (db : DB) (pid : Nat)
    (fetched : List (String × String)) (proj1 : Project)
    (hfind : findProject db pid = some proj1) :
    findProject (setSummary db pid fetched) pid =
      some { proj1 with
        summary := some (summarize (fetched.map (·.2)) proj1.star_ramble),
        summary_embedding_vector :=
          some (embed (summarize (fetched.map (·.2)) proj1.star_ramble)) } := by
  have hpid : (proj1.project_id == pid) = true := by
    rw [beq_iff_eq]
    exact findProject_some_pid hfind
  unfold setSummary findProject
  show (db.projects.map _).find? (fun q : Project => q.project_id == pid) = _
  rw [find?_map_comm _ _ _ (fun q => by split <;> rfl)]
  unfold findProject at hfind
  rw [hfind, Option.map_some']
  rw [if_pos hpid]

theorem summary_regen_of_ramble_change (db : DB) (pid : Nat)
    (fetched : List (String × String)) (proj : Project)
    (hfind : findProject db pid = some proj)
    (hram : rambleChanged proj = true)
    (hfiles : ∀ pc ∈ fetched,
      detectChange (storedHash db pid pc.1) pc.2 = .unchanged) :
    (∃ proj', findProject (processProject db pid fetched).1 pid = some proj' ∧
      proj'.summary = some (summarize (fetched.map (·.2)) proj.star_ramble) ∧
      proj'.summary_embedding_vector =
        some (embed (summarize (fetched.map (·.2)) proj.star_ramble))) ∧
    (processProject db pid fetched).2.llmCalls = 1 := by
  unfold processProject
  split
  · rename_i heq
    rw [heq] at hfind
    cases hfind
  rename_i proj'' heq
  rw [hfind] at heq
  injection heq with heq
  subst heq
  split
  · rw [processFiles_unchanged_eq fetched hfiles]
    obtain ⟨proj1, hfind1, hsr1⟩ := findProject_processRamble_self
      db proj pid (by
        show findProject ((db, RunLog.zero) : DB × RunLog).1 pid = _
        exact hfind)
    constructor
    · refine ⟨{ proj1 with
        summary := some (summarize (fetched.map (·.2)) proj1.star_ramble),
        summary_embedding_vector :=
          some (embed (summarize (fetched.map (·.2)) proj1.star_ramble)) },
        ?_, ?_, ?_⟩
      · show findProject (setSummary
          (processRamble ((db, RunLog.zero) : DB × RunLog).1 proj).1
          pid fetched) pid = _
        exact findProject_setSummary_self _ pid fetched proj1 hfind1
      · rw [hsr1]
      · rw [hsr1]
    · show ((RunLog.zero.add
        (processRamble ((db, RunLog.zero) : DB × RunLog).1 proj).2).add
        { embedCalls := 1, llmCalls := 1 }).llmCalls = 1
      unfold RunLog.add
      rw [processRamble_llm]
      rfl
  · rename_i hcond
    exfalso
    apply hcond
    rw [hram, Bool.or_true]

/-! ### Extraction of the reachable-state invariants -/

theorem filter_length_le_one {α : Type _} (l : List α) (p : α → Bool)
    (h : l.Pairwise (fun a b => p a = true → p b = false)) :
    (l.filter p).length ≤ 1 := by
  induction l with
  | nil => simp
  | cons a t ih =>
      rw [List.pairwise_cons] at h
      cases hpa : p a
      · rw [List.filter_cons_of_neg (by simp [hpa])]
        exact ih h.2
      · rw [List.filter_cons_of_pos hpa]
        have hnil : t.filter p = [] := by
          rw [List.filter_eq_nil_iff]
          intro b hb
          simp [h.1 b hb hpa]
        rw [hnil]
        simp

theorem ramble_count_of_wf (cs : List Chunk) (h : RamblePW cs) (pid : Nat) :
    (cs.filter (fun c => isRambleOf pid c)).length ≤ 1 := by
  apply filter_length_le_one
  exact h.imp (fun hab ha => hab pid ha)

theorem chunk_source_unique_of_wf (cs : List Chunk) (h : ChunksWF cs) :
    cs.Pairwise (fun a b => SameSource a b → a.chunk_index ≠ b.chunk_index) := by
  obtain ⟨h1, h2, h3⟩ := h
  refine (h1.and h2).imp_of_mem ?_
  intro a b ha hb hr hss
  rcases hss with ⟨f, haf, hbf⟩ | ⟨han, hbn, hpp⟩
  · exact hr.2 f haf hbf
  · exfalso
    obtain ⟨hta, pa, hpa⟩ := h3 a ha han
    obtain ⟨htb, pb, hpb⟩ := h3 b hb hbn
    rw [hpa, hpb] at hpp
    injection hpp with hpab
    have hra : isRambleOf pa a = true := by
      unfold isRambleOf
      rw [hta, hpa, Bool.and_eq_true]
      exact ⟨beq_self_eq_true _, beq_self_eq_true _⟩
    have hrb : isRambleOf pa b = true := by
      unfold isRambleOf
      rw [htb, hpb, ← hpab, Bool.and_eq_true]
      exact ⟨beq_self_eq_true _, beq_self_eq_true _⟩
    have := hr.1 pa hra
    rw [hrb] at this
    cases this

theorem upsertProject_existing_length (db : DB) (u : Nat) (url : String)
    (t : Option String) (p0 : Project) (hp0 : p0 ∈ db.projects)
    (hu : p0.user_id = u) (hurl : p0.github_url = url) :
    (upsertProject db u url t).projects.length = db.projects.length := by
  unfold upsertProject
  rw [if_pos]
  · show (db.projects.map _).length = _
    rw [List.length_map]
  · rw [List.any_eq_true]
    exact ⟨p0, hp0, by
      rw [Bool.and_eq_true, beq_iff_eq, beq_iff_eq]
      exact ⟨hu, hurl⟩⟩

/-! ### Cascade deletion leaves no orphans -/

theorem deleteUser_no_orphans (db : DB) (u : Nat) (h : NoOrphans db) :
    NoOrphans (deleteUser db u) ∧
      ∀ p ∈ (deleteUser db u).projects, p.user_id ≠ u := by
  obtain ⟨h1, h2, h3⟩ := h
  refine ⟨⟨?_, ?_, ?_⟩, ?_⟩
  · intro p hp
    have hp' := List.mem_filter.mp hp
    obtain ⟨usr, husr, huid⟩ := h1 p hp'.1
    refine ⟨usr, List.mem_filter.mpr ⟨husr, ?_⟩, huid⟩
    rw [bne_iff_ne, huid]
    exact bne_iff_ne.mp hp'.2
  · intro f hf
    have hf' := List.mem_filter.mp hf
    obtain ⟨p0, hp0, hpid⟩ := h2 f hf'.1
    have hkeep : (p0.user_id != u) = true := by
      rw [bne_iff_ne]
      intro hcontra
      have hmem : f.project_id ∈ deadProjectIds db u := by
        rw [← hpid]
        exact List.mem_map_of_mem _ (List.mem_filter.mpr
          ⟨hp0, by rw [beq_iff_eq]; exact hcontra⟩)
      exact absurd hmem (of_decide_eq_true hf'.2)
    exact ⟨p0, List.mem_filter.mpr ⟨hp0, hkeep⟩, hpid⟩
  · intro c hc
    have hc' := List.mem_filter.mp hc
    have hcond := hc'.2
    rw [Bool.and_eq_true] at hcond
    constructor
    · intro fid hfid
      obtain ⟨f0, hf0, hfid0⟩ := (h3 c hc'.1).1 fid hfid
      have hXtrue := hcond.1
      rw [hfid] at hXtrue
      have hnot : fid ∉ deadFileIds db u := of_decide_eq_true hXtrue
      have hkeep : decide (f0.project_id ∉ deadProjectIds db u) = true := by
        rw [decide_eq_true_eq]
        intro hcontra
        apply hnot
        rw [← hfid0]
        exact List.mem_map_of_mem _ (List.mem_filter.mpr
          ⟨hf0, by rw [decide_eq_true_eq]; exact hcontra⟩)
      exact ⟨f0, List.mem_filter.mpr ⟨hf0, hkeep⟩, hfid0⟩
    · intro pid hpid
      obtain ⟨p0, hp0, hpid0⟩ := (h3 c hc'.1).2 pid hpid
      have hYtrue := hcond.2
      rw [hpid] at hYtrue
      have hnot : pid ∉ deadProjectIds db u := of_decide_eq_true hYtrue
      have hkeep : (p0.user_id != u) = true := by
        rw [bne_iff_ne]
        intro hcontra
        apply hnot
        rw [← hpid0]
        exact List.mem_map_of_mem _ (List.mem_filter.mpr
          ⟨hp0, by rw [beq_iff_eq]; exact hcontra⟩)
      exact ⟨p0, List.mem_filter.mpr ⟨hp0, hkeep⟩, hpid0⟩
  · intro p hp
    exact bne_iff_ne.mp (List.mem_filter.mp hp).2

theorem deleteProject_no_orphans (db : DB) (pid : Nat) (h : NoOrphans db) :
    NoOrphans (deleteProject db pid) ∧
      (∀ f ∈ (deleteProject db pid).files, f.project_id ≠ pid) ∧
      (∀ c ∈ (deleteProject db pid).chunks, c.project_id ≠ some pid) := by
  obtain ⟨h1, h2, h3⟩ := h
  refine ⟨⟨?_, ?_, ?_⟩, ?_, ?_⟩
  · intro p hp
    have hp' := List.mem_filter.mp hp
    exact h1 p hp'.1
  · intro f hf
    have hf' := List.mem_filter.mp hf
    obtain ⟨p0, hp0, hpid0⟩ := h2 f hf'.1
    have hkeep : (p0.project_id != pid) = true := by
      rw [bne_iff_ne, hpid0]
      exact bne_iff_ne.mp hf'.2
    exact ⟨p0, List.mem_filter.mpr ⟨hp0, hkeep⟩, hpid0⟩
  · intro c hc
    have hc' := List.mem_filter.mp hc
    have hcond := hc'.2
    rw [Bool.and_eq_true] at hcond
    constructor
    · intro fid hfid
      obtain ⟨f0, hf0, hfid0⟩ := (h3 c hc'.1).1 fid hfid
      have hXtrue := hcond.1
      rw [hfid] at hXtrue
      have hnot : fid ∉ projectFileIds db pid := of_decide_eq_true hXtrue
      have hkeep : (f0.project_id != pid) = true := by
        rw [bne_iff_ne]
        intro hcontra
        apply hnot
        rw [← hfid0]
        exact List.mem_map_of_mem _ (List.mem_filter.mpr
          ⟨hf0, by rw [beq_iff_eq]; exact hcontra⟩)
      exact ⟨f0, List.mem_filter.mpr ⟨hf0, hkeep⟩, hfid0⟩
    · intro q hq
      obtain ⟨p0, hp0, hpid0⟩ := (h3 c hc'.1).2 q hq
      have hYtrue := hcond.2
      rw [hq] at hYtrue
      have hkeep : (p0.project_id != pid) = true := by
        rw [bne_iff_ne, hpid0]
        exact bne_iff_ne.mp hYtrue
      exact ⟨p0, List.mem_filter.mpr ⟨hp0, hkeep⟩, hpid0⟩
  · intro f hf
    exact bne_iff_ne.mp (List.mem_filter.mp hf).2
  · intro c hc
    have hc' := List.mem_filter.mp hc
    have hcond := hc'.2
    rw [Bool.and_eq_true] at hcond
    intro hcontra
    have hYtrue := hcond.2
    rw [hcontra] at hYtrue
    exact bne_iff_ne.mp hYtrue rfl

/-! ### RAG Resume Generator facts -/

theorem stage1_length_le (db : DB) (uid : Nat) (jd : String) (n : Nat)
    (sim : SimFn) : (stage1 db uid jd n sim).length ≤ n := by
  unfold stage1
  rw [List.length_map, List.enum_length]
  exact List.length_take_le n _

theorem length_filterMap_eq_count {α β : Type _} (l : List α)
    (f : α → Option β) :
    (l.filterMap f).length = (l.filter (fun a => (f a).isSome)).length := by
  induction l with
  | nil => rfl
  | cons a t ih =>
      cases hf : f a with
      | none =>
          rw [List.filterMap_cons_none hf,
            List.filter_cons_of_neg (by simp [hf]), ih]
      | some b =>
          rw [List.filterMap_cons_some hf,
            List.filter_cons_of_pos (by simp [hf])]
          simpa using ih

theorem ragResume_error_iff (db : DB) (uid : Nat) (jd : String) (n : Nat)
    (sim : SimFn) (llm : Candidate → List Chunk → Option GenOutput) :
    (ragResume db uid jd n sim llm = .error .noCandidates ↔
      stage1 db uid jd n sim = []) := by
  unfold ragResume
  cases he : (stage1 db uid jd n sim).isEmpty
  · rw [if_neg (by simp [he])]
    constructor
    · intro h
      cases h
    · intro h
      rw [h] at he
      cases he
  · rw [if_pos rfl]
    exact ⟨fun _ => List.isEmpty_iff.mp he, fun _ => rfl⟩

theorem ragResume_ok_length (db : DB) (uid : Nat) (jd : String) (n : Nat)
    (sim : SimFn) (llm : Candidate → List Chunk → Option GenOutput)
    (l : List ResumeEntry) (h : ragResume db uid jd n sim llm = .ok l) :
    l.length = ((stage1 db uid jd n sim).filter
      (fun c => (entryFor db jd sim llm c).isSome)).length := by
  unfold ragResume at h
  cases he : (stage1 db uid jd n sim).isEmpty
  · rw [if_neg (by simp [he])] at h
    injection h with h
    rw [← h, (List.perm_insertionSort entryLE _).length_eq,
      length_filterMap_eq_count]
  · rw [if_pos he] at h
    cases h

theorem ragResume_ok_sorted (db : DB) (uid : Nat) (jd : String) (n : Nat)
    (sim : SimFn) (llm : Candidate → List Chunk → Option GenOutput)
    (l : List ResumeEntry) (h : ragResume db uid jd n sim llm = .ok l) :
    l.length ≤ n ∧ l.Sorted entryLE := by
  unfold ragResume at h
  cases he : (stage1 db uid jd n sim).isEmpty
  · rw [if_neg (by simp [he])] at h
    injection h with h
    constructor
    · rw [← h, (List.perm_insertionSort entryLE _).length_eq]
      exact le_trans (List.length_filterMap_le _ _) (stage1_length_le db uid jd n sim)
    · rw [← h]
      exact List.sorted_insertionSort entryLE _
  · rw [if_pos he] at h
    cases h

/-! ### Orchestrator invariant preservation -/

theorem orchInv_step {s s' : OrchState} (hstep : OStep s s')
    (hinv : OrchInv s) : OrchInv s' := by
  obtain ⟨hnd, hrun, hwf⟩ := hinv
  cases hstep with
  | accept u acts hne =>
      refine ⟨?_, ?_, hwf⟩
      · rw [List.map_cons, List.nodup_cons]
        refine ⟨?_, hnd⟩
        intro hmem
        obtain ⟨e, he, heq⟩ := List.mem_map.mp hmem
        apply hne
        have hr := hrun e he
        rw [heq] at hr
        exact hr
      · intro e he
        rcases List.mem_cons.mp he with rfl | he'
        · show (if u = u then JobStatus.running else s.status u) = .running
          rw [if_pos rfl]
        · show (if e.1 = u then JobStatus.running else s.status e.1) = .running
          by_cases hc : e.1 = u
          · rw [if_pos hc]
          · rw [if_neg hc]
            exact hrun e he'
  | reject u hrun0 => exact ⟨hnd, hrun, hwf⟩
  | work u a rest hmem =>
      refine ⟨?_, ?_, ?_⟩
      · have hfst : (s.active.map
            (fun e => if e.1 = u then (u, rest) else e)).map Prod.fst =
            s.active.map Prod.fst := by
          rw [List.map_map]
          apply List.map_congr_left
          intro e _
          show (if e.1 = u then (u, rest) else e).1 = e.1
          split
          · rename_i hc
            exact hc.symm
          · rfl
        rw [hfst]
        exact hnd
      · intro e he
        obtain ⟨e0, he0, heq⟩ := List.mem_map.mp he
        rw [← heq]
        show s.status (if e0.1 = u then (u, rest) else e0).1 = .running
        split
        · rename_i hc
          show s.status u = .running
          rw [← hc]
          exact hrun e0 he0
        · exact hrun e0 he0
      · cases a with
        | wFile pid path content => exact chunksWF_processFile pid path content hwf
        | wRamble pid =>
            have happ : WAction.apply (.wRamble pid) s.db =
                (match findProject s.db pid with
                 | some proj => (processRamble s.db proj).1
                 | none => s.db) := rfl
            show ChunksWF (WAction.apply (.wRamble pid) s.db).chunks
            rw [happ]
            rcases hf : findProject s.db pid with _ | proj
            · exact hwf
            · exact chunksWF_processRamble _ hwf
        | wSummary pid fetched => exact hwf
  | finish u hmem =>
      refine ⟨?_, ?_, hwf⟩
      · exact List.Nodup.sublist
          (List.Sublist.map Prod.fst (List.filter_sublist _)) hnd
      · intro e he
        have he' := List.mem_filter.mp he
        have hne : e.1 ≠ u := of_decide_eq_true he'.2
        show (if e.1 = u then JobStatus.done else s.status e.1) = .running
        rw [if_neg hne]
        exact hrun e he'.1

theorem orchInv_reach {s0 s : OrchState}
    (h : Relation.ReflTransGen OStep s0 s) (hinv : OrchInv s0) : OrchInv s := by
  induction h with
  | refl => exact hinv
  | tail _ hstep ih => exact orchInv_step hstep ih

theorem orchInv_start (db : DB) (hwf : ChunksWF db.chunks) :
    OrchInv (OrchState.start db) :=
  ⟨List.Pairwise.nil, fun e he => absurd he (List.not_mem_nil e), hwf⟩

/-! ### Browser Supabase client facts -/

theorem getSupabase_fixed (st : ModuleState) (c : SupabaseClient)
    (st' : ModuleState)
    (h : getSupabaseBrowserClient true st = .ok (c, st')) :
    getSupabaseBrowserClient true st' = .ok (c, st') := by
  unfold getSupabaseBrowserClient at h ⊢
  cases hb : st.browserClient with
  | some c0 =>
      rw [hb] at h
      show (match st'.browserClient with
        | some c1 => Except.ok (c1, st')
        | none => _) = _
      injection h with h
      injection h with h1 h2
      rw [← h2, hb, ← h1]
  | none =>
      rw [hb] at h
      injection h with h
      injection h with h1 h2
      rw [← h2, ← h1]
      rfl

theorem nthBrowserCall_const (st : ModuleState) (c : SupabaseClient)
    (st' : ModuleState)
    (h : getSupabaseBrowserClient true st = .ok (c, st')) :
    ∀ k, nthBrowserCall k st = .ok (c, st') := by
  intro k
  induction k generalizing st with
  | zero => exact h
  | succ k ih =>
      show (match getSupabaseBrowserClient true st with
        | .ok (_, st1) => nthBrowserCall k st1
        | .error e => .error e) = _
      rw [h]
      exact ih st' (getSupabase_fixed st c st' h)

/-! ### Last helpers for the claim theorems -/

theorem replaceRamble_exactly_one (cs : List Chunk) (pid : Nat)
    (text : String) :
    ((cs.filter (fun c => !isRambleOf pid c) ++
      [rambleChunkFor pid text]).filter
        (fun c => isRambleOf pid c)).length = 1 := by
  rw [List.filter_append]
  have h1 : (cs.filter (fun c => !isRambleOf pid c)).filter
      (fun c => isRambleOf pid c) = [] := by
    rw [List.filter_eq_nil_iff]
    intro a ha
    have := (List.mem_filter.mp ha).2
    rw [Bool.not_eq_true'] at this
    simp [this]
  rw [h1, List.filter_cons_of_pos
    ((isRambleOf_rambleChunkFor pid pid text).mpr rfl), List.filter_nil]
  rfl

theorem ragResume_ok_of_nonempty (db : DB) (uid : Nat) (jd : String)
    (n : Nat) (sim : SimFn)
    (llm : Candidate → List Chunk → Option GenOutput)
    (h : stage1 db uid jd n sim ≠ []) :
    ∃ l, ragResume db uid jd n sim llm = .ok l := by
  unfold ragResume
  rw [if_neg (by
    intro hc
    exact h (List.isEmpty_iff.mp hc))]
  exact ⟨_, rfl⟩

/-! ## Claim theorems -/

/-- C1: For every project and at every time, at most one chunk row owned by
that project has `chunk_type = 'ramble'` — after arbitrarily many repeated
ramble edits and re-processing runs (first conjunct, over all reachable
stores); and an edit to the project's ramble replaces the existing ramble
chunk rather than adding a second one: the delete-then-insert replacement
leaves exactly one ramble chunk for the project (second conjunct).  This is
the `unique_project_ramble_chunk` partial unique index of
`postgres_database.json`. -/
theorem ramble_chunk_uniqueness {db : DB} (h : Reachable db) :
    (∀ pid, (db.chunks.filter (fun c => isRambleOf pid c)).length ≤ 1) ∧
    (∀ (cs : List Chunk) (pid : Nat) (text : String),
      ((cs.filter (fun c => !isRambleOf pid c) ++
        [rambleChunkFor pid text]).filter
          (fun c => isRambleOf pid c)).length = 1) :=
  ⟨fun pid => ramble_count_of_wf db.chunks (dbwf_reachable h).1.1 pid,
   fun cs pid text => replaceRamble_exactly_one cs pid text⟩

/-- Witness for C1: a store built by sign-in, project upsert, two ramble
edits each followed by a re-processing run. -/
theorem ramble_chunk_uniqueness_witness :
    (((runIngestion (editRamble (runIngestion (editRamble
        (upsertProject (insertUser DB.empty ⟨1, "u", "t"⟩) 1 "url" none)
        1 "ramble one") reqsFix).1 1 "ramble two") reqsFix).1).chunks.filter
      (fun c => isRambleOf 1 c)).length ≤ 1 :=
  (ramble_chunk_uniqueness
    (Reachable.ingest reqsFix (Reachable.editRamble 1 "ramble two"
      (Reachable.ingest reqsFix (Reachable.editRamble 1 "ramble one"
        (Reachable.upsertProject 1 "url" none
          (Reachable.insertUser ⟨1, "u", "t"⟩ Reachable.init))))))).1 1

/-- C2: re-running ingestion immediately after a run, with no file content
and no ramble changed, is idempotent: the second run returns the same store
with a zero cost log (no re-chunking, no re-embedding, no LLM call), every
file's change detection returns `unchanged`, and the row counts of
projects, files and chunks and the counts of stored chunk-level and
project-level vectors are identical before and after the second run. -/
theorem second_run_idempotent (db : DB)
    (reqs : List (Nat × List (String × String)))
    (hpids : (reqs.map Prod.fst).Nodup)
    (hpaths : ∀ req ∈ reqs, (req.2.map Prod.fst).Nodup)
    (hex : ∀ req ∈ reqs, (findProject db req.1).isSome) :
    runIngestion (runIngestion db reqs).1 reqs =
      ((runIngestion db reqs).1, RunLog.zero) ∧
    (∀ req ∈ reqs, ∀ pc ∈ req.2,
      detectChange (storedHash (runIngestion db reqs).1 req.1 pc.1) pc.2
        = .unchanged) ∧
    (runIngestion (runIngestion db reqs).1 reqs).1.projects.length =
      (runIngestion db reqs).1.projects.length ∧
    (runIngestion (runIngestion db reqs).1 reqs).1.files.length =
      (runIngestion db reqs).1.files.length ∧
    (runIngestion (runIngestion db reqs).1 reqs).1.chunks.length =
      (runIngestion db reqs).1.chunks.length ∧
    ((runIngestion (runIngestion db reqs).1 reqs).1.chunks.filter
      (fun c => c.embedding_vector.isSome)).length =
      ((runIngestion db reqs).1.chunks.filter
        (fun c => c.embedding_vector.isSome)).length ∧
    ((runIngestion (runIngestion db reqs).1 reqs).1.projects.filter
      (fun p => p.summary_embedding_vector.isSome)).length =
      ((runIngestion db reqs).1.projects.filter
        (fun p => p.summary_embedding_vector.isSome)).length := by
  have hidem := runIngestion_idem reqs hpids hpaths hex
  have hfresh := runIngestion_fresh reqs hpids hpaths hex
  refine ⟨hidem, fun req hreq => (hfresh req hreq).1, ?_, ?_, ?_, ?_, ?_⟩
  all_goals rw [hidem]

/-- Witness for C2: one processed project re-ingested with identical
content. -/
theorem second_run_idempotent_witness :
    runIngestion (runIngestion dbFix reqsFix).1 reqsFix =
      ((runIngestion dbFix reqsFix).1, RunLog.zero) :=
  (second_run_idempotent dbFix reqsFix (by decide) (by decide) (by decide)).1

/-- C3: whenever the RAG Resume Generator returns successfully, it returns
at most `n` entries (each carrying title, bullets, technologies, repo URL
and alignment score by construction of `ResumeEntry`), ordered by
non-increasing alignment score with ties between equal scores broken by the
entries' original stage-1 rank. -/
theorem rag_entries_ranked (db : DB) (uid : Nat) (jd : String) (n : Nat)
    (sim : SimFn) (llm : Candidate → List Chunk → Option GenOutput)
    (l : List ResumeEntry) (h : ragResume db uid jd n sim llm = .ok l) :
    l.length ≤ n ∧
    l.Pairwise (fun a b => b.alignment_score < a.alignment_score ∨
      (a.alignment_score = b.alignment_score ∧ a.rank ≤ b.rank)) :=
  ragResume_ok_sorted db uid jd n sim llm l h

/-- Witness for C3: two selected projects, always-succeeding generator. -/
theorem rag_entries_ranked_witness :
    lFix.length ≤ 3 ∧
    lFix.Pairwise (fun a b => b.alignment_score < a.alignment_score ∨
      (a.alignment_score = b.alignment_score ∧ a.rank ≤ b.rank)) :=
  rag_entries_ranked dbRag 7 "job" 3 simFix llmFix lFix (by rfl)

/-- C4: projects are unique on the (user, repo-identity) pair in every
reachable store (the `UNIQUE(user_id, github_url)` constraint of
`001_initial_schema.sql`), and a repeat upsert of an already-present
(user, repo) pair updates in place, never adding a second row. -/
theorem project_identity_unique {db : DB} (h : Reachable db) :
    db.projects.Pairwise
      (fun a b => a.user_id ≠ b.user_id ∨ a.github_url ≠ b.github_url) ∧
    (∀ u url t p0, p0 ∈ db.projects → p0.user_id = u → p0.github_url = url →
      (upsertProject db u url t).projects.length = db.projects.length) :=
  ⟨(dbwf_reachable h).2, fun u url t p0 hp0 hu hurl =>
    upsertProject_existing_length db u url t p0 hp0 hu hurl⟩

/-- Witness for C4: a repeat sign-in upserting the same repository twice
leaves one project row, and a third upsert adds none. -/
theorem project_identity_unique_witness :
    (upsertProject (upsertProject (insertUser DB.empty ⟨1, "u", "t"⟩)
        1 "url" none) 1 "url" (some "t")).projects.Pairwise
      (fun a b => a.user_id ≠ b.user_id ∨ a.github_url ≠ b.github_url) ∧
    (upsertProject (upsertProject (upsertProject
        (insertUser DB.empty ⟨1, "u", "t"⟩) 1 "url" none)
        1 "url" (some "t")) 1 "url" none).projects.length =
      (upsertProject (upsertProject (insertUser DB.empty ⟨1, "u", "t"⟩)
        1 "url" none) 1 "url" (some "t")).projects.length :=
  ⟨(project_identity_unique (Reachable.upsertProject 1 "url" (some "t")
      (Reachable.upsertProject 1 "url" none
        (Reachable.insertUser ⟨1, "u", "t"⟩ Reachable.init)))).1,
   (project_identity_unique (Reachable.upsertProject 1 "url" (some "t")
      (Reachable.upsertProject 1 "url" none
        (Reachable.insertUser ⟨1, "u", "t"⟩ Reachable.init)))).2
     1 "url" none
     { project_id := 1, user_id := 1, github_url := "url", title := some "t" }
     (by decide) rfl rfl⟩

/-- C5: within every single source — one file, or one project's ramble —
the ordinal chunk indices of stored chunks are pairwise distinct in every
reachable store: no two chunk rows share the same (source, chunk_index)
pair, including NULL-file (ramble) chunks. -/
theorem chunk_ordinals_unique {db : DB} (h : Reachable db) :
    db.chunks.Pairwise
      (fun a b => SameSource a b → a.chunk_index ≠ b.chunk_index) :=
  chunk_source_unique_of_wf db.chunks (dbwf_reachable h).1

/-- Witness for C5: a store with both a file chunk and a ramble chunk. -/
theorem chunk_ordinals_unique_witness :
    (((runIngestion (editRamble (upsertProject
        (insertUser DB.empty ⟨1, "u", "t"⟩) 1 "url" none) 1 "my ramble")
        reqsFix).1).chunks.Pairwise
      (fun a b => SameSource a b → a.chunk_index ≠ b.chunk_index)) :=
  chunk_ordinals_unique
    (Reachable.ingest reqsFix (Reachable.editRamble 1 "my ramble"
      (Reachable.upsertProject 1 "url" none
        (Reachable.insertUser ⟨1, "u", "t"⟩ Reachable.init))))

/-- C6: if a project's ramble has changed since the last processing run,
invoking processing again regenerates the project's summary and summary
embedding (and makes the one summariser LLM call) even when every file's
content fingerprint is unchanged. -/
theorem ramble_change_forces_summary_regen (db : DB) (pid : Nat)
    (fetched : List (String × String)) (proj : Project)
    (hfind : findProject db pid = some proj)
    (hram : rambleChanged proj = true)
    (hfiles : ∀ pc ∈ fetched,
      detectChange (storedHash db pid pc.1) pc.2 = .unchanged) :
    (∃ proj', findProject (processProject db pid fetched).1 pid = some proj' ∧
      proj'.summary = some (summarize (fetched.map (·.2)) proj.star_ramble) ∧
      proj'.summary_embedding_vector =
        some (embed (summarize (fetched.map (·.2)) proj.star_ramble))) ∧
    (processProject db pid fetched).2.llmCalls = 1 :=
  summary_regen_of_ramble_change db pid fetched proj hfind hram hfiles

/-- Witness for C6: `dbEdit` has an edited ramble and an unchanged file. -/
theorem ramble_change_forces_summary_regen_witness :
    (∃ proj', findProject
        (processProject dbEdit 1 [("main.py", "print(1)")]).1 1 = some proj' ∧
      proj'.summary = some (summarize ([("main.py", "print(1)")].map (·.2))
        projEdit.star_ramble) ∧
      proj'.summary_embedding_vector = some (embed (summarize
        ([("main.py", "print(1)")].map (·.2)) projEdit.star_ramble))) ∧
    (processProject dbEdit 1 [("main.py", "print(1)")]).2.llmCalls = 1 :=
  ramble_change_forces_summary_regen dbEdit 1 [("main.py", "print(1)")]
    projEdit rfl (by decide) (by decide)

/-- C7: the resume-generation call fails if and only if stage-1 retrieval
returns zero candidates; with a non-empty stage-1 it returns a list, and an
LLM generation failure for an individual project's bullets only omits that
project: the returned length equals the number of candidates whose
generation call succeeded (possibly shorter than `n`). -/
theorem rag_error_only_on_empty_stage1 (db : DB) (uid : Nat) (jd : String)
    (n : Nat) (sim : SimFn)
    (llm : Candidate → List Chunk → Option GenOutput) :
    (ragResume db uid jd n sim llm = .error .noCandidates ↔
      stage1 db uid jd n sim = []) ∧
    (∀ l, ragResume db uid jd n sim llm = .ok l →
      l.length = ((stage1 db uid jd n sim).filter
        (fun c => (entryFor db jd sim llm c).isSome)).length) ∧
    (stage1 db uid jd n sim ≠ [] →
      ∃ l, ragResume db uid jd n sim llm = .ok l) :=
  ⟨ragResume_error_iff db uid jd n sim llm,
   fun l h => ragResume_ok_length db uid jd n sim llm l h,
   fun h => ragResume_ok_of_nonempty db uid jd n sim llm h⟩

/-- Witness for C7: with a generator failing for project 2 only, the call
still succeeds and returns exactly the one successful entry. -/
theorem rag_error_only_on_empty_stage1_witness :
    (ragResume dbRag 7 "job" 3 simFix llmPartial = .error .noCandidates ↔
      stage1 dbRag 7 "job" 3 simFix = []) ∧
    lFix1.length = ((stage1 dbRag 7 "job" 3 simFix).filter
      (fun c => (entryFor dbRag "job" simFix llmPartial c).isSome)).length :=
  ⟨(rag_error_only_on_empty_stage1 dbRag 7 "job" 3 simFix llmPartial).1,
   (rag_error_only_on_empty_stage1 dbRag 7 "job" 3 simFix llmPartial).2.1
     lFix1 (by rfl)⟩

/-- C8: in every orchestrator state reachable from a start state, at most
one ingestion run is active per user; a request arriving while that user's
job is `running` is rejected with the whole state unchanged (never
interleaved); and the chunk table never holds duplicate
(file, chunk_index) pairs. -/
theorem single_active_run_per_user (db : DB) (s : OrchState)
    (hwf : ChunksWF db.chunks)
    (hreach : Relation.ReflTransGen OStep (OrchState.start db) s) :
    (s.active.map Prod.fst).Nodup ∧
    FileChunkPW s.db.chunks ∧
    (∀ u, s.status u = .running → OStep s s) := by
  have hinv := orchInv_reach hreach (orchInv_start db hwf)
  exact ⟨hinv.1, hinv.2.2.2.1, fun u hu => OStep.reject s u hu⟩

/-- Witness for C8: the start state over `dbFix`. -/
theorem single_active_run_per_user_witness :
    ((OrchState.start dbFix).active.map Prod.fst).Nodup ∧
    FileChunkPW (OrchState.start dbFix).db.chunks ∧
    (∀ u, (OrchState.start dbFix).status u = .running →
      OStep (OrchState.start dbFix) (OrchState.start dbFix)) :=
  single_active_run_per_user dbFix _
    ⟨List.pairwise_singleton _ _, List.pairwise_singleton _ _, by
      intro c hc hnone
      cases hc with
      | head => cases hnone
      | tail _ h => cases h⟩
    Relation.ReflTransGen.refl

/-- C9: deleting a user deletes every project owned by that user, and
deleting a project deletes every repository-file and chunk row owned by it,
so no orphan project, file, or chunk row referencing a deleted owner
remains (the `ON DELETE CASCADE` chain of `001_initial_schema.sql`). -/
theorem cascade_delete_no_orphans (db : DB) (u pid : Nat) (h : NoOrphans db) :
    (NoOrphans (deleteUser db u) ∧
      ∀ p ∈ (deleteUser db u).projects, p.user_id ≠ u) ∧
    (NoOrphans (deleteProject db pid) ∧
      (∀ f ∈ (deleteProject db pid).files, f.project_id ≠ pid) ∧
      (∀ c ∈ (deleteProject db pid).chunks, c.project_id ≠ some pid)) :=
  ⟨deleteUser_no_orphans db u h, deleteProject_no_orphans db pid h⟩

/-- Witness for C9: deleting the one user (and, independently, the one
project) of `dbFix`. -/
theorem cascade_delete_no_orphans_witness :
    (NoOrphans (deleteUser dbFix 1) ∧
      ∀ p ∈ (deleteUser dbFix 1).projects, p.user_id ≠ 1) ∧
    (NoOrphans (deleteProject dbFix 1) ∧
      (∀ f ∈ (deleteProject dbFix 1).files, f.project_id ≠ 1) ∧
      (∀ c ∈ (deleteProject dbFix 1).chunks, c.project_id ≠ some 1)) :=
  cascade_delete_no_orphans dbFix 1 1 (by unfold NoOrphans; decide)

/-- C10: `getSupabaseBrowserClient` always throws outside a browser, and in
a browser it is memoized: once a call returns a client and state, every
later call returns exactly that client and leaves the state unchanged (the
client is created at most once per page session). -/
theorem supabase_client_memoized :
    (∀ st, getSupabaseBrowserClient false st =
      .error "Supabase client is only available in the browser.") ∧
    (∀ st c st', getSupabaseBrowserClient true st = .ok (c, st') →
      ∀ k, nthBrowserCall k st = .ok (c, st')) :=
  ⟨fun _ => rfl, fun st c st' h k => nthBrowserCall_const st c st' h k⟩

/-- Witness for C10: from the freshly loaded module state, the first call
creates `clientFix` and the next three calls all return it unchanged. -/
theorem supabase_client_memoized_witness :
    nthBrowserCall 3 ModuleState.initial = .ok (clientFix, stFix) ∧
    getSupabaseBrowserClient false ModuleState.initial =
      .error "Supabase client is only available in the browser." :=
  ⟨supabase_client_memoized.2 ModuleState.initial clientFix stFix (by rfl) 3,
   supabase_client_memoized.1 ModuleState.initial⟩

end ResumeTailor
